import Mathlib

/-!
# Verification of the binary-ws message layer (`src/bin/common/BaseSocket.js`)

A shallow embedding of the repository's `BaseSocket` class and proofs about it.

Modelling conventions (used throughout, documented once here):

* A byte buffer (`Buffer`) is a `List Nat`; real buffers hold bytes `< 256`,
  but no property proved here depends on that bound.
* A JavaScript number is represented wherever it is stored or transmitted by
  its IEEE-754 binary64 bit pattern (a `Nat < 2^64`).  `writeDoubleBE` writes
  these 64 bits big-endian; `readDoubleBE` reads them back.  Where the source
  uses a number as a length, an offset or a `Map` key, it is always an exact
  nonnegative integer (every such number is produced by `Buffer#length` or the
  `_messageID` counter), and the model converts the bit pattern to the `Nat`
  it denotes via `doubleBitsToNat?`; a bit pattern that does not denote a
  nonnegative integer `< 2^53` is modelled as a decode failure.
* A JavaScript string is represented by the list of its UTF-8 bytes, so
  `Buffer.from(string)` and `buffer.toString()` are identities of the model.
* A structured (non-null, non-Buffer) object value is represented by the text
  of its JSON serialization; the success of the builtin `JSON.parse` is
  modelled by the syntactic validity check `jsonValid`.
* Exceptions are modelled with `Except String`; `Buffer#readUInt8` /
  `readDoubleBE` throw (`RangeError`) when the read would pass the end of the
  buffer, while `Buffer#slice` clamps its bounds without error, exactly as in
  Node.
-/

namespace BinaryWS

/-! ## Byte-level primitives -/

/-- The eight big-endian bytes of a 64-bit value (`Buffer#writeDoubleBE`
writes the bit pattern of a double this way). -/
def bytes8BE (x : Nat) : List Nat :=
  [x / 2 ^ 56 % 256, x / 2 ^ 48 % 256, x / 2 ^ 40 % 256, x / 2 ^ 32 % 256,
   x / 2 ^ 24 % 256, x / 2 ^ 16 % 256, x / 2 ^ 8 % 256, x % 256]

/-- Big-endian value of a byte list. -/
def beVal (l : List Nat) : Nat := l.foldl (fun a b => a * 256 + b) 0

/-- Model of `Buffer#readUInt8 i`: one byte, throwing when past the end. -/
def readUInt8 (data : List Nat) (i : Nat) : Except String Nat :=
  match data[i]? with
  | some b => .ok b
  | none => .error "readUInt8: index out of range"

/-- Model of `Buffer#readDoubleBE i`: the 64-bit pattern at byte offset `i`,
throwing when fewer than 8 bytes remain. -/
def readDoubleBE (data : List Nat) (i : Nat) : Except String Nat :=
  if i + 8 ≤ data.length then .ok (beVal ((data.drop i).take 8))
  else .error "readDoubleBE: index out of range"

/-- Model of `Buffer#slice start end`: the bytes in `[start, end)`, bounds clamped to
the buffer (Node never throws here). -/
def jsSlice (data : List Nat) (s e : Nat) : List Nat := (data.take e).drop s

/-! ## IEEE-754 binary64 bit patterns of nonnegative integers -/

/-- Fuel-driven floor of `log2` (structural, so it reduces in the kernel). -/
def flog2Aux : Nat → Nat → Nat
  | 0, _ => 0
  | f + 1, n => if n < 2 then 0 else flog2Aux f (n / 2) + 1

/-- Floor of `log2 n` (0 for `n = 0`). -/
def flog2 (n : Nat) : Nat := flog2Aux n n

/-- The binary64 bit pattern of the nonnegative integer `n`: the value
`Buffer#writeDoubleBE n` stores.  Exact for `n < 2^53`; above that the
mantissa is truncated rather than rounded to nearest, which is irrelevant
here because every number the source writes (lengths, message ids) is far
below `2^53`. -/
def natToDoubleBits (n : Nat) : Nat :=
  if n = 0 then 0
  else
    let e := flog2 n
    if e ≤ 52 then (1023 + e) * 2 ^ 52 + (n * 2 ^ (52 - e) - 2 ^ 52)
    else (1023 + e) * 2 ^ 52 + (n / 2 ^ (e - 52) - 2 ^ 52)

/-- The nonnegative integer denoted by a binary64 bit pattern, when the
pattern denotes exactly a nonnegative integer (`none` for negative numbers,
non-integers, infinities and NaNs). -/
def doubleBitsToNat? (bits : Nat) : Option Nat :=
  if bits = 0 then some 0
  else if 2 ^ 63 ≤ bits then none
  else
    let ebits := bits / 2 ^ 52
    let frac := bits % 2 ^ 52
    if ebits < 1023 then none
    else if 2047 ≤ ebits then none
    else
      let e := ebits - 1023
      if e ≤ 52 then
        if (2 ^ 52 + frac) % 2 ^ (52 - e) = 0 then some ((2 ^ 52 + frac) / 2 ^ (52 - e))
        else none
      else some ((2 ^ 52 + frac) * 2 ^ (e - 52))

/-- Reading a numeric field that the source goes on to use as an integer
(length, offset, map key); see the modelling conventions above. -/
def asLen (bits : Nat) : Except String Nat :=
  match doubleBitsToNat? bits with
  | some n => .ok n
  | none => .error "model: numeric field does not denote a nonnegative integer"

/-! ## A syntactic model of `JSON.parse` success -/

/-- Skip JSON whitespace. -/
def jsonWs (s : List Nat) : List Nat :=
  s.dropWhile (fun b => b == 32 || b == 9 || b == 10 || b == 13)

/-- Scan a JSON string body after the opening quote; returns the remainder
after the closing quote. -/
def jsonStr : List Nat → Option (List Nat)
  | [] => none
  | 34 :: rest => some rest
  | 92 :: [] => none
  | 92 :: _ :: rest => jsonStr rest
  | _ :: rest => jsonStr rest

/-- Digits `0`-`9`. -/
def isDigit (b : Nat) : Bool := 48 ≤ b && b ≤ 57

/-- Scan a JSON number (sign, digits, optional fraction and exponent). -/
def jsonNum (s : List Nat) : Option (List Nat) :=
  let s := if s.head? = some 45 then s.tail else s
  let ds := s.takeWhile isDigit
  if ds.isEmpty then none
  else
    let s := s.dropWhile isDigit
    let s := if s.head? = some 46 then
               let t := s.tail
               t.dropWhile isDigit
             else s
    if s.head? = some 101 || s.head? = some 69 then
      let t := s.tail
      let t := if t.head? = some 43 || t.head? = some 45 then t.tail else t
      if (t.takeWhile isDigit).isEmpty then none else some (t.dropWhile isDigit)
    else some s

mutual

/-- Scan one JSON value; fuel-driven recursive descent. -/
def jsonVal : Nat → List Nat → Option (List Nat)
  | 0, _ => none
  | f + 1, s =>
    match jsonWs s with
    | 110 :: 117 :: 108 :: 108 :: r => some r
    | 116 :: 114 :: 117 :: 101 :: r => some r
    | 102 :: 97 :: 108 :: 115 :: 101 :: r => some r
    | 34 :: r => jsonStr r
    | 91 :: r =>
      (match jsonWs r with
       | 93 :: r2 => some r2
       | r2 => jsonArr f r2)
    | 123 :: r =>
      (match jsonWs r with
       | 125 :: r2 => some r2
       | r2 => jsonObj f r2)
    | r => jsonNum r

/-- Scan `value (, value)* ]`. -/
def jsonArr : Nat → List Nat → Option (List Nat)
  | 0, _ => none
  | f + 1, s =>
    match jsonVal f s with
    | none => none
    | some r =>
      match jsonWs r with
      | 93 :: r2 => some r2
      | 44 :: r2 => jsonArr f r2
      | _ => none

/-- Scan `"key" : value (, "key" : value)* }`. -/
def jsonObj : Nat → List Nat → Option (List Nat)
  | 0, _ => none
  | f + 1, s =>
    match jsonWs s with
    | 34 :: r =>
      (match jsonStr r with
       | none => none
       | some r2 =>
         match jsonWs r2 with
         | 58 :: r3 =>
           (match jsonVal f r3 with
            | none => none
            | some r4 =>
              match jsonWs r4 with
              | 125 :: r5 => some r5
              | 44 :: r5 => jsonObj f r5
              | _ => none)
         | _ => none)
    | _ => none

end

/-- Does the byte list parse as a complete JSON document?  Models the
success / failure of the builtin `JSON.parse`; no theorem below evaluates
tag-5 decoding, only its presence in the control flow matters. -/
def jsonValid (s : List Nat) : Bool :=
  match jsonVal (s.length + 1) s with
  | some r => jsonWs r == []
  | none => false

/-! ## The value codec (`BaseSocket.serialize` / `BaseSocket.deserialize`) -/

/-- The values the codec handles, one constructor per `typeof`-dispatch arm
of `BaseSocket.serialize` (wire tag in comments). -/
inductive Value
  /-- tag 0: a number, by its binary64 bit pattern -/
  | num (bits : Nat)
  /-- tag 1: a string, by its UTF-8 bytes -/
  | str (s : List Nat)
  /-- tag 2: a boolean -/
  | bool (b : Bool)
  /-- tag 3: null -/
  | null
  /-- tag 4: undefined -/
  | undef
  /-- tag 5: a structured object, by its JSON serialization -/
  | obj (j : List Nat)
  /-- tag 6: a Buffer (binary blob) -/
  | buf (b : List Nat)
deriving DecidableEq

/-- One arm of the `switch (typeof item)` in `BaseSocket.serialize`
(`src/bin/common/BaseSocket.js:79-142`): tag byte, then for sized variants the
8-byte `writeDoubleBE` length, then the content. -/
def serializeItem : Value → List Nat
  | .num bits => 0 :: bytes8BE bits
  | .str s => 1 :: bytes8BE (natToDoubleBits s.length) ++ s
  | .bool b => [2, if b then 1 else 0]
  | .null => [3]
  | .undef => [4]
  | .obj j => 5 :: bytes8BE (natToDoubleBits j.length) ++ j
  | .buf b => 6 :: bytes8BE (natToDoubleBits b.length) ++ b

/-- Model of `BaseSocket.serialize`: concatenation of the per-item encodings. -/
def serialize (v : List Value) : List Nat := (v.map serializeItem).flatten

/-- The loop body of `BaseSocket.deserialize`
(`src/bin/common/BaseSocket.js:150-202`), reading at offset `prev`.  The
`while (previous < data.length)` loop is driven by fuel; every iteration
advances `prev` by at least one, so `data.length` steps always suffice and
the fuel-exhaustion branch is unreachable from `deserialize`. -/
def deserializeAux (data : List Nat) : Nat → Nat → Except String (List Value)
  | 0, prev => if prev < data.length then .error "model: fuel exhausted" else .ok []
  | fuel + 1, prev =>
    match data[prev]? with
    | none => .ok []
    | some t =>
      match t with
      | 0 => do
        let bits ← readDoubleBE data (prev + 1)
        let rest ← deserializeAux data fuel (prev + 1 + 8)
        pure (Value.num bits :: rest)
      | 1 => do
        let lb ← readDoubleBE data (prev + 1)
        let len ← asLen lb
        let content := jsSlice data (prev + 9) (prev + 9 + len)
        let rest ← deserializeAux data fuel (prev + 9 + len)
        pure (Value.str content :: rest)
      | 2 => do
        let c ← readUInt8 data (prev + 1)
        let rest ← deserializeAux data fuel (prev + 2)
        pure (Value.bool (c == 1) :: rest)
      | 4 => do
        let rest ← deserializeAux data fuel (prev + 1)
        pure (Value.undef :: rest)
      | 3 => do
        let rest ← deserializeAux data fuel (prev + 1)
        pure (Value.null :: rest)
      | 6 => do
        let lb ← readDoubleBE data (prev + 1)
        let len ← asLen lb
        let content := jsSlice data (prev + 9) (prev + 9 + len)
        let rest ← deserializeAux data fuel (prev + 9 + len)
        pure (Value.buf content :: rest)
      | 5 => do
        let lb ← readDoubleBE data (prev + 1)
        let len ← asLen lb
        let content := jsSlice data (prev + 9) (prev + 9 + len)
        if jsonValid content then
          let rest ← deserializeAux data fuel (prev + 9 + len)
          pure (Value.obj content :: rest)
        else .error "model: JSON.parse failed"
      | t => .error ("data type don`t exist. type: " ++ toString t)

/-- Model of `BaseSocket.deserialize`. -/
def deserialize (data : List Nat) : Except String (List Value) :=
  deserializeAux data data.length 0

/-- The value sequences claim C2 quantifies over: only
Number/String/Boolean/Null/Undefined/Binary variants, each within the range
the JavaScript representation can produce (a number has a 64-bit pattern, a
string or buffer length is below `2^53`). -/
def roundOK : Value → Bool
  | .num bits => decide (bits < 2 ^ 64)
  | .str s => decide (s.length < 2 ^ 53)
  | .bool _ => true
  | .null => true
  | .undef => true
  | .obj _ => false
  | .buf b => decide (b.length < 2 ^ 53)

/-! ## Header codec, old variant (`_serializeHeader` / `_deserializeHeader`,
`src/bin/common/BaseSocket.js:215-253`) -/

/-- The decoded header of the old variant.  `messageIDBits` keeps the raw
64-bit pattern read by `readDoubleBE` (the source keeps the number and later
re-serializes it verbatim into the ack body). -/
structure OldHeader where
  isInternal : Bool
  messageName : List Nat
  needACK : Bool
  messageIDBits : Nat
  headerLength : Nat
deriving DecidableEq

/-- Model of `_serializeHeader` (old variant): `headerLength`, `isInternal`,
`messageNameLength`, `messageName`, `needACK`, `messageID`; the length field
counts the whole header including the 8-byte length field itself. -/
def serializeHeaderOld (isInternal : Bool) (messageName : List Nat)
    (needACK : Bool) (messageID : Nat) : List Nat :=
  bytes8BE (natToDoubleBits (8 + 1 + 8 + messageName.length + 1 + 8)) ++
  [if isInternal then 1 else 0] ++
  bytes8BE (natToDoubleBits messageName.length) ++ messageName ++
  [if needACK then 1 else 0] ++
  bytes8BE (natToDoubleBits messageID)

/-- Model of `_deserializeHeader` (old variant). -/
def deserializeHeaderOld (data : List Nat) : Except String OldHeader := do
  let hlBits ← readDoubleBE data 0
  let hl ← asLen hlBits
  let iIb ← readUInt8 data 8
  let nlBits ← readDoubleBE data 9
  let nl ← asLen nlBits
  let name := jsSlice data 17 (17 + nl)
  let ackB ← readUInt8 data (17 + nl)
  let idBits ← readDoubleBE data (18 + nl)
  .ok { isInternal := iIb == 1, messageName := name, needACK := ackB == 1,
        messageIDBits := idBits, headerLength := hl }

/-! ## Header codec, canonical variant
(`src/bin/common/BaseSocket.js:455-474`).  The canonical implementation
feeds the 4-tuple `[isInternal, needACK, messageID, messageName]` to the
value codec (the spec, §4.2, states the `object2buffer` codec it imports is
the §4.1 Value Codec scheme) and prefixes the 8-byte length of that
encoding. -/

/-- The decoded header of the canonical variant. -/
structure CHeader where
  isInternal : Bool
  needACK : Bool
  messageID : Nat
  messageName : List Nat
  headerLength : Nat
deriving DecidableEq

/-- Canonical `_serializeHeader`. -/
def serializeHeaderC (isInternal needACK : Bool) (messageID : Nat)
    (messageName : List Nat) : List Nat :=
  bytes8BE (natToDoubleBits
    (serialize [.bool isInternal, .bool needACK, .num (natToDoubleBits messageID),
                .str messageName]).length) ++
  serialize [.bool isInternal, .bool needACK, .num (natToDoubleBits messageID),
             .str messageName]

/-- Canonical `_deserializeHeader`: reads the prefix length field, decodes
the tuple from the following bytes, and reports `headerLength` as the field
value plus the 8-byte width of the field itself.  The source reads
`header[0] .. header[3]` without a shape check; the model makes the implicit
typing explicit and fails on a tuple of unexpected shape (unreachable for
frames the encoder produces). -/
def deserializeHeaderC (data : List Nat) : Except String CHeader := do
  let hlBits ← readDoubleBE data 0
  let hl ← asLen hlBits
  let vals ← deserialize (jsSlice data 8 (hl + 8))
  match vals with
  | [.bool i, .bool a, .num mbits, .str name] =>
    match doubleBitsToNat? mbits with
    | some m =>
      .ok { isInternal := i, needACK := a, messageID := m, messageName := name,
            headerLength := 8 + hl }
    | none => .error "model: messageID field does not denote an integer"
  | _ => .error "model: unexpected header tuple shape"

/-! ## The outbound queue (`BaseSocket` constructor, `_send`, `cancel`,
`_receiveData`; old variant, `src/bin/common/BaseSocket.js:15-45,264-381`) -/

/-- The terminal state of a send's promise. -/
inductive Outcome
  | resolved
  | rejected (err : String)
deriving DecidableEq

/-- One `control` object of `_send`: the closure state of a pending send. -/
structure PendingSend where
  messageID : Nat
  data : List Nat
  needACK : Bool
  sent : Bool
deriving DecidableEq

/-- A delivered external message: the body is deserialized unless the socket
was configured with `needDeserialize = false`. -/
inductive RecvBody
  | vals (v : List Value)
  | raw (b : List Nat)
deriving DecidableEq

/-- The queue-relevant state of one `BaseSocket`.

* `messageID`: the `_messageID` counter.
* `queue`: `_queue`, a `Map` in insertion order (message ids are unique in
  every reachable state).
* `settled`: the settlement log of the send promises, in settlement order;
  a promise resolves or rejects at most once, so at most one entry per id.
* `writes`: one entry `(messageID, needACK)` per `_sendData` call, i.e. per
  actual transmission; completion of a write is a separate event.
* `errors`: the synchronously emitted `error` events.
* `messages`: the delivered `message` events.
* `maxPayload`, `needDeserialize`: the constructor configuration
  (`maxPayload` is `undefined` when `none`). -/
structure SocketState where
  messageID : Nat
  queue : List PendingSend
  settled : List (Nat × Outcome)
  writes : List (Nat × Bool)
  errors : List String
  messages : List (List Nat × RecvBody)
  maxPayload : Option Nat
  needDeserialize : Bool
deriving DecidableEq

/-- The state of a freshly constructed socket. -/
def initState (maxPayload : Option Nat) (needDeserialize : Bool) : SocketState :=
  { messageID := 0, queue := [], settled := [], writes := [], errors := [],
    messages := [], maxPayload := maxPayload, needDeserialize := needDeserialize }

/-- The insertion-ordered message ids of the queue. -/
def queueIds (st : SocketState) : List Nat := st.queue.map (fun c => c.messageID)

/-- Has the promise of message `id` already settled? -/
def isSettled (st : SocketState) (id : Nat) : Bool := st.settled.any (fun p => p.1 == id)

/-- Model of `resolve` / `reject` of a promise: the first settlement wins, later
calls are ignored. -/
def settleOnce (st : SocketState) (id : Nat) (o : Outcome) : SocketState :=
  if isSettled st id then st else { st with settled := st.settled ++ [(id, o)] }

/-- Model of `err ? reject(err) : resolve()`. -/
def outcomeOf : Option String → Outcome
  | some e => .rejected e
  | none => .resolved

/-- Model of `Map#delete` on the queue. -/
def removeId (q : List PendingSend) (id : Nat) : List PendingSend :=
  q.filter (fun c => c.messageID != id)

/-- Model of `Map#set`: replaces in place when the key exists, appends otherwise
(the key is always fresh in reachable states). -/
def mapSet (q : List PendingSend) (c : PendingSend) : List PendingSend :=
  if q.any (fun x => x.messageID == c.messageID) then
    q.map (fun x => if x.messageID == c.messageID then c else x)
  else q ++ [c]

/-- Model of `control.cancel(err)` reached through `_queue.get(messageID)` (which is
how both `BaseSocket.cancel` and the close drain reach it): `false` when the
entry is absent or already sent; otherwise removes the entry, settles its
promise (resolve when `err` is omitted, reject otherwise) and returns
`true`. -/
def cancelOp (st : SocketState) (id : Nat) (err : Option String) : SocketState × Bool :=
  match st.queue.find? (fun c => c.messageID == id) with
  | some c =>
    if c.sent then (st, false)
    else (settleOnce { st with queue := removeId st.queue id } id (outcomeOf err), true)
  | none => (st, false)

/-- Model of `control.send()`: no-op when already sent, otherwise marks the entry
sent and issues the transport write (`_sendData`), whose completion arrives
later as a `writeDone` event. -/
def ctrlSend (st : SocketState) (id : Nat) : SocketState :=
  match st.queue.find? (fun c => c.messageID == id) with
  | some c =>
    if c.sent then st
    else { st with
           queue := st.queue.map (fun x =>
             if x.messageID == id then { x with sent := true } else x),
           writes := st.writes ++ [(id, c.needACK)] }
  | none => st

/-- Model of `control.ack(err)`: records whether the entry is the queue head, deletes
it, settles its promise, and when it was the head and the queue is still
non-empty invokes `send` on the new head.  The closure can run for an entry
no longer in the queue (a late write completion); deletion is then a no-op
and the settlement is absorbed by promise idempotence. -/
def ctrlAck (st : SocketState) (id : Nat) (err : Option String) : SocketState :=
  let isFirst := match st.queue.head? with
    | some h => h.messageID == id
    | none => false
  let st1 := settleOnce { st with queue := removeId st.queue id } id (outcomeOf err)
  if isFirst then
    match st1.queue.head? with
    | some h => ctrlSend st1 h.messageID
    | none => st1
  else st1

/-- The `data` argument of `send`: a value array, or a raw buffer carrying
(or not) the `_serialized` marker. -/
inductive SendData
  | values (vs : List Value)
  | raw (b : List Nat) (serializedFlag : Bool)
deriving DecidableEq

/-- What `_send` returns: the allocated message id, and whether the promise
was synchronously rejected by the executor throwing. -/
inductive SendRes
  | accepted (id : Nat)
  | failed (id : Nat) (e : String)
deriving DecidableEq

/-- The body bytes for a `send` payload; a raw buffer without the
`_serialized` marker throws. -/
def sendBody : SendData → Except String (List Nat)
  | .values vs => .ok (serialize vs)
  | .raw b true => .ok b
  | .raw _ false => .error "要被发送的Buffer并不是BaseSocket.serialize()序列化产生的"

/-- The `maxPayload` guard of the old variant: a limit only when configured,
and strictly `length > maxPayload`. -/
def overMax (mp : Option Nat) (len : Nat) : Bool :=
  match mp with
  | some m => decide (m < len)
  | none => false

/-- Model of `_send` (old variant): allocate the id, build `header ++ body`, reject
synchronously on a bad payload or an oversized frame (nothing is queued in
either case, since the throw precedes `_queue.set`), otherwise enqueue and
transmit at once when `prior` is set or the entry is alone in the queue. -/
def sendOp (st : SocketState) (isInternal prior : Bool) (messageName : List Nat)
    (needACK : Bool) (d : SendData) : SocketState × SendRes :=
  let msgID := st.messageID
  let st := { st with messageID := st.messageID + 1 }
  let header := serializeHeaderOld isInternal messageName needACK msgID
  match sendBody d with
  | .error e => (settleOnce st msgID (.rejected e), .failed msgID e)
  | .ok body =>
    let sendingData := header ++ body
    if overMax st.maxPayload sendingData.length then
      (settleOnce st msgID (.rejected "发送的数据大小超过了限制"),
       .failed msgID "发送的数据大小超过了限制")
    else
      let c : PendingSend :=
        { messageID := msgID, data := sendingData, needACK := needACK, sent := false }
      let st := { st with queue := mapSet st.queue c }
      if prior || st.queue.length == 1 then (ctrlSend st msgID, .accepted msgID)
      else (st, .accepted msgID)

/-- Public `send` (`isInternal = false`). -/
def sendPublic (st : SocketState) (messageName : List Nat) (d : SendData)
    (needACK prior : Bool) : SocketState × SendRes :=
  sendOp st false prior messageName needACK d

/-- Model of `_sendInternal` with its defaults (`needACK = false`, `prior = true`). -/
def sendInternal (st : SocketState) (messageName : List Nat) (d : SendData) :
    SocketState × SendRes :=
  sendOp st true true messageName false d

/-- The bytes of the message name `"ack"`. -/
def ackName : List Nat := [97, 99, 107]

/-- Model of `_receiveData` (old variant, `src/bin/common/BaseSocket.js:341-366`):
decode the header (any throw is caught and emitted as an `error` event);
answer a `needACK` frame with an internal `"ack"` send (its promise
rejection is reported asynchronously and is not part of the synchronous
state change); for an internal frame decode the body and, for message name
`"ack"`, settle the pending send whose id the body carries, silently
skipping when no such entry exists; for an external frame deliver the
(optionally deserialized) body as a `message` event. -/
def receiveData (st : SocketState) (data : List Nat) : SocketState :=
  match deserializeHeaderOld data with
  | .error e => { st with errors := st.errors ++ [e] }
  | .ok h =>
    let st := if h.needACK
      then (sendInternal st ackName (.values [.num h.messageIDBits])).1
      else st
    if h.isInternal then
      match deserialize (data.drop h.headerLength) with
      | .error e => { st with errors := st.errors ++ [e] }
      | .ok body =>
        if h.messageName == ackName then
          match body.head? with
          | some (.num bits) =>
            match doubleBitsToNat? bits with
            | some k =>
              match st.queue.find? (fun c => c.messageID == k) with
              | some _ => ctrlAck st k none
              | none => st
            | none => st
          | _ => st
        else st
    else
      if st.needDeserialize then
        match deserialize (data.drop h.headerLength) with
        | .error e => { st with errors := st.errors ++ [e] }
        | .ok body => { st with messages := st.messages ++ [(h.messageName, .vals body)] }
      else
        { st with messages := st.messages ++ [(h.messageName, .raw (data.drop h.headerLength))] }

/-- One step of the close handler registered in the constructor
(`src/bin/common/BaseSocket.js:38-44`): `item.cancel(Error)` and, when that
reports failure, `item.ack(Error)`. -/
def drainStep (st : SocketState) (id : Nat) : SocketState :=
  let r := cancelOp st id (some "连接中断")
  if r.2 then r.1 else ctrlAck r.1 id (some "连接中断")

/-- The close handler: snapshot the queue values, iterate them in reverse
insertion order.  (Iterating ids is faithful: each snapshot entry is still
in the queue when its turn comes, because processing an entry removes only
that entry and marks only queue heads as sent, and the head is processed
last.) -/
def closeDrain (st : SocketState) : SocketState :=
  (st.queue.reverse.map (fun c => c.messageID)).foldl drainStep st

/-- The wire frame an `"ack"` internal send produces on the peer
(`_sendInternal('ack', [messageID])` with its defaults): header with
`isInternal = true`, `needACK = false`, the peer's own counter value `k`,
and a body carrying the acknowledged id `m` as a number. -/
def ackFrame (k m : Nat) : List Nat :=
  serializeHeaderOld true ackName false k ++ serialize [.num (natToDoubleBits m)]

/-! ## Events and reachability -/

/-- The external events that mutate the queue state. -/
inductive Event
  | send (isInternal prior : Bool) (name : List Nat) (needACK : Bool) (d : SendData)
  | cancelEv (id : Nat) (err : Option String)
  | receive (data : List Nat)
  /-- Completion of a transport write previously issued for `(id, nACK)`:
  `_sendData(..).catch(control.ack)` when the send needed an ack (so `ack`
  runs only on failure), `_sendData(..).then(control.ack).catch(control.ack)`
  otherwise (so `ack` runs on success and on failure). -/
  | writeDone (id : Nat) (nACK : Bool) (err : Option String)
  | close

/-- The state transition of one event. -/
def step (st : SocketState) : Event → SocketState
  | .send i p n a d => (sendOp st i p n a d).1
  | .cancelEv id err => (cancelOp st id err).1
  | .receive d => receiveData st d
  | .writeDone id nACK err =>
    if (id, nACK) ∈ st.writes ∧ (err.isSome ∨ nACK = false) then ctrlAck st id err
    else st
  | .close => closeDrain st

/-- Events that issue no `prior = true` send: explicit sends must not be
prior, and received frames must not request an ack (a `needACK` frame makes
`_receiveData` issue the internal ack reply, which is a prior send). -/
def NoPriorEvent : Event → Prop
  | .send _ prior _ _ _ => prior = false
  | .receive d => ∀ h, deserializeHeaderOld d = .ok h → h.needACK = false
  | _ => True

/-- States reachable from a fresh socket through prior-free events. -/
inductive ReachableNP (mp : Option Nat) (nd : Bool) : SocketState → Prop
  | init : ReachableNP mp nd (initState mp nd)
  | next {st : SocketState} (e : Event) :
      ReachableNP mp nd st → NoPriorEvent e → ReachableNP mp nd (step st e)

/-- The invariant carried through the reachability induction: queue keys are
unique and below the counter, as are the logged settlement and write ids; no
queued entry's promise has settled; and every queued entry with `sent = true`
is the queue head. -/
structure Inv (st : SocketState) : Prop where
  nodup : (queueIds st).Nodup
  qlt : ∀ c ∈ st.queue, c.messageID < st.messageID
  slt : ∀ p ∈ st.settled, p.1 < st.messageID
  wlt : ∀ w ∈ st.writes, w.1 < st.messageID
  disj : ∀ c ∈ st.queue, isSettled st c.messageID = false
  flight : ∀ c ∈ st.queue, c.sent = true → st.queue.head? = some c

/-! ## Concrete states used by the witnesses -/

/-- A pending send that has been transmitted (queue head). -/
def demoSent : PendingSend := { messageID := 0, data := [0], needACK := true, sent := true }

/-- A pending send still waiting in the queue. -/
def demoQueued : PendingSend := { messageID := 1, data := [1, 2], needACK := true, sent := false }

/-- A socket with one in-flight and one queued send. -/
def demoState : SocketState :=
  { messageID := 2, queue := [demoSent, demoQueued], settled := [],
    writes := [(0, true)], errors := [], messages := [], maxPayload := none,
    needDeserialize := true }

/-- The socket of `demoState` after its close drain: the queue is empty and
both sends are already settled (the state in which a late ack frame for an
already-settled id arrives). -/
def demoDrained : SocketState :=
  { messageID := 2, queue := [],
    settled := [(1, .rejected "连接中断"), (0, .rejected "连接中断")],
    writes := [(0, true)], errors := [], messages := [], maxPayload := none,
    needDeserialize := true }

/-! ## Arithmetic and codec lemmas -/

theorem flog2Aux_spec : ∀ (f n : Nat), n ≤ f → n ≠ 0 →
    2 ^ flog2Aux f n ≤ n ∧ n < 2 ^ (flog2Aux f n + 1)
  | 0, n, hf, h0 => by omega
  | f + 1, n, hf, h0 => by
    unfold flog2Aux
    by_cases h2 : n < 2
    · have hn1 : n = 1 := by omega
      subst hn1
      simp
    · simp only [if_neg h2]
      have hle : n / 2 ≤ f := by omega
      have hne : n / 2 ≠ 0 := by omega
      have ih := flog2Aux_spec f (n / 2) hle hne
      have hp1 : (2 : Nat) ^ (flog2Aux f (n / 2) + 1) = 2 * 2 ^ flog2Aux f (n / 2) := by ring
      have hp2 : (2 : Nat) ^ (flog2Aux f (n / 2) + 1 + 1) = 2 * 2 ^ (flog2Aux f (n / 2) + 1) := by ring
      omega

theorem flog2_spec (n : Nat) (h : n ≠ 0) : 2 ^ flog2 n ≤ n ∧ n < 2 ^ (flog2 n + 1) :=
  flog2Aux_spec n n le_rfl h

theorem natToDoubleBits_eq (n : Nat) (h0 : n ≠ 0) (h52 : flog2 n ≤ 52) :
    natToDoubleBits n = (1023 + flog2 n) * 2 ^ 52 + (n * 2 ^ (52 - flog2 n) - 2 ^ 52) := by
  rw [natToDoubleBits]
  simp only [if_neg h0, if_pos h52]

theorem doubleBits_roundtrip (n : Nat) (h : n < 2 ^ 53) :
    doubleBitsToNat? (natToDoubleBits n) = some n := by
  by_cases h0 : n = 0
  · subst h0; simp [natToDoubleBits, doubleBitsToNat?]
  · obtain ⟨he1, he2⟩ := flog2_spec n h0
    set e := flog2 n with hedef
    have he52 : e ≤ 52 := by
      by_contra hc
      push_neg at hc
      have h53 : (2 : Nat) ^ 53 ≤ 2 ^ e := Nat.pow_le_pow_right (by norm_num) (by omega)
      omega
    have hsplit : (2 : Nat) ^ e * 2 ^ (52 - e) = 2 ^ 52 := by
      rw [← pow_add]; congr 1; omega
    have hsplit2 : (2 : Nat) ^ (e + 1) * 2 ^ (52 - e) = 2 ^ 53 := by
      rw [← pow_add]; congr 1; omega
    have hppos : 0 < (2 : Nat) ^ (52 - e) := pow_pos (by norm_num) _
    have hM1 : 2 ^ 52 ≤ n * 2 ^ (52 - e) := by
      rw [← hsplit]
      exact Nat.mul_le_mul_right _ he1
    have hM2 : n * 2 ^ (52 - e) < 2 ^ 53 := by
      rw [← hsplit2]
      exact (Nat.mul_lt_mul_right hppos).mpr he2
    set F := n * 2 ^ (52 - e) - 2 ^ 52 with hFdef
    have hMF : n * 2 ^ (52 - e) = 2 ^ 52 + F := by omega
    have hF : F < 2 ^ 52 := by
      have h5253 : (2 : Nat) ^ 53 = 2 * 2 ^ 52 := by ring
      omega
    have hbits : natToDoubleBits n = (1023 + e) * 2 ^ 52 + F :=
      natToDoubleBits_eq n h0 he52
    have hne0 : (1023 + e) * 2 ^ 52 + F ≠ 0 := by
      have hpos : 0 < (1023 + e) * 2 ^ 52 :=
        Nat.mul_pos (by omega) (pow_pos (by norm_num) _)
      omega
    have hlt63 : ¬ (2 ^ 63 ≤ (1023 + e) * 2 ^ 52 + F) := by
      push_neg
      calc (1023 + e) * 2 ^ 52 + F < (1023 + e) * 2 ^ 52 + 2 ^ 52 := by omega
        _ = (1023 + e + 1) * 2 ^ 52 := by ring
        _ ≤ 2048 * 2 ^ 52 := Nat.mul_le_mul_right _ (by omega)
        _ = 2 ^ 63 := by norm_num
    have hdiv : ((1023 + e) * 2 ^ 52 + F) / 2 ^ 52 = 1023 + e := by
      rw [mul_comm, Nat.mul_add_div (pow_pos (by norm_num) _),
          Nat.div_eq_of_lt hF, Nat.add_zero]
    have hmod : ((1023 + e) * 2 ^ 52 + F) % 2 ^ 52 = F := by
      rw [mul_comm, Nat.mul_add_mod, Nat.mod_eq_of_lt hF]
    rw [hbits, doubleBitsToNat?]
    rw [if_neg hne0, if_neg hlt63]
    simp only [hdiv, hmod]
    rw [if_neg (by omega : ¬(1023 + e < 1023)), if_neg (by omega : ¬(2047 ≤ 1023 + e))]
    have hee : 1023 + e - 1023 = e := by omega
    rw [hee, if_pos he52, ← hMF]
    rw [if_pos (Nat.mul_mod_left n _), Nat.mul_div_cancel n hppos]

theorem natToDoubleBits_lt (n : Nat) (h : n < 2 ^ 53) : natToDoubleBits n < 2 ^ 63 := by
  by_cases h0 : n = 0
  · subst h0; simp [natToDoubleBits]
  · obtain ⟨he1, he2⟩ := flog2_spec n h0
    set e := flog2 n with hedef
    have he52 : e ≤ 52 := by
      by_contra hc
      push_neg at hc
      have h53 : (2 : Nat) ^ 53 ≤ 2 ^ e := Nat.pow_le_pow_right (by norm_num) (by omega)
      omega
    have hsplit2 : (2 : Nat) ^ (e + 1) * 2 ^ (52 - e) = 2 ^ 53 := by
      rw [← pow_add]; congr 1; omega
    have hppos : 0 < (2 : Nat) ^ (52 - e) := pow_pos (by norm_num) _
    have hM2 : n * 2 ^ (52 - e) < 2 ^ 53 := by
      rw [← hsplit2]
      exact (Nat.mul_lt_mul_right hppos).mpr he2
    rw [natToDoubleBits_eq n h0 he52]
    calc (1023 + e) * 2 ^ 52 + (n * 2 ^ (52 - e) - 2 ^ 52)
        ≤ (1023 + e) * 2 ^ 52 + 2 ^ 52 := by
          have h5253 : (2 : Nat) ^ 53 = 2 * 2 ^ 52 := by ring
          omega
      _ = (1023 + e + 1) * 2 ^ 52 := by ring
      _ ≤ 2047 * 2 ^ 52 := Nat.mul_le_mul_right _ (by omega)
      _ < 2 ^ 63 := by norm_num

theorem bytes8BE_length (x : Nat) : (bytes8BE x).length = 8 := rfl

theorem beVal_bytes8BE (x : Nat) (h : x < 2 ^ 64) : beVal (bytes8BE x) = x := by
  simp only [beVal, bytes8BE, List.foldl]
  norm_num
  omega

theorem readUInt8_append (pre l : List Nat) (b : Nat) :
    readUInt8 (pre ++ b :: l) pre.length = .ok b := by
  rw [readUInt8, List.getElem?_append_right (le_refl pre.length)]
  simp

theorem readDoubleBE_append (pre l : List Nat) (h : 8 ≤ l.length) :
    readDoubleBE (pre ++ l) pre.length = .ok (beVal (l.take 8)) := by
  rw [readDoubleBE, if_pos (by simp; omega), List.drop_left]

theorem jsSlice_append (pre mid rest : List Nat) :
    jsSlice (pre ++ (mid ++ rest)) pre.length (pre.length + mid.length) = mid := by
  rw [jsSlice, ← List.append_assoc, List.take_left' (by simp), List.drop_left]

theorem deserializeAux_at_end (data : List Nat) (fuel : Nat) :
    deserializeAux data fuel data.length = .ok [] := by
  cases fuel with
  | zero => simp [deserializeAux]
  | succ f => simp [deserializeAux]

theorem serialize_cons (x : Value) (v : List Value) :
    serialize (x :: v) = serializeItem x ++ serialize v := by
  simp [serialize]

theorem bind_ok {ε α β : Type} (a : α) (f : α → Except ε β) :
    (Except.ok a : Except ε α) >>= f = f a := rfl

theorem bind_error {ε α β : Type} (e : ε) (f : α → Except ε β) :
    (Except.error e : Except ε α) >>= f = .error e := rfl

theorem deserializeAux_step_num (bits : Nat) (hx : bits < 2 ^ 64) (pre rest : List Nat) (f : Nat) :
    deserializeAux (pre ++ (serializeItem (.num bits) ++ rest)) (f + 1) pre.length =
      (deserializeAux (pre ++ (serializeItem (.num bits) ++ rest)) f (pre.length + 9)).map
        (fun r => Value.num bits :: r) := by
  have hassoc : pre ++ (serializeItem (.num bits) ++ rest) =
      pre ++ 0 :: (bytes8BE bits ++ rest) := by
    simp [serializeItem]
  have hget : (pre ++ 0 :: (bytes8BE bits ++ rest))[pre.length]? = some 0 := by
    rw [List.getElem?_append_right (le_refl pre.length)]
    simp
  have hread : readDoubleBE (pre ++ 0 :: (bytes8BE bits ++ rest)) (pre.length + 1) = .ok bits := by
    have h1 : pre ++ 0 :: (bytes8BE bits ++ rest) = (pre ++ [0]) ++ (bytes8BE bits ++ rest) := by
      simp
    have h2 : pre.length + 1 = (pre ++ [0]).length := by simp
    rw [h1, h2, readDoubleBE_append _ _ (by simp [bytes8BE_length])]
    rw [List.take_left' (bytes8BE_length bits), beVal_bytes8BE bits hx]
  rw [hassoc]
  conv_lhs => rw [deserializeAux]
  rw [hget]
  simp only [hread, bind_ok]
  have h9 : pre.length + 1 + 8 = pre.length + 9 := by omega
  rw [h9]
  cases deserializeAux (pre ++ 0 :: (bytes8BE bits ++ rest)) f (pre.length + 9) with
  | error e => rfl
  | ok r => rfl


theorem deserializeAux_step_str (content : List Nat)
    (hx : content.length < 2 ^ 53) (pre rest : List Nat) (f : Nat) :
    deserializeAux (pre ++ (serializeItem (.str content) ++ rest)) (f + 1) pre.length =
      (deserializeAux (pre ++ (serializeItem (.str content) ++ rest))
          f (pre.length + 9 + content.length)).map
        (fun r => Value.str content :: r) := by
  have hassoc : pre ++ (serializeItem (.str content) ++ rest) =
      pre ++ 1 :: (bytes8BE (natToDoubleBits content.length) ++ (content ++ rest)) := by
    simp [serializeItem]
  set L := natToDoubleBits content.length with hL
  have hget : (pre ++ 1 :: (bytes8BE L ++ (content ++ rest)))[pre.length]? = some 1 := by
    rw [List.getElem?_append_right (le_refl pre.length)]
    simp
  have hbits64 : L < 2 ^ 64 := by
    have := natToDoubleBits_lt content.length hx
    have h6364 : (2 : Nat) ^ 63 < 2 ^ 64 := by norm_num
    omega
  have hread : readDoubleBE (pre ++ 1 :: (bytes8BE L ++ (content ++ rest))) (pre.length + 1) =
      .ok L := by
    have h1 : pre ++ 1 :: (bytes8BE L ++ (content ++ rest)) =
        (pre ++ [1]) ++ (bytes8BE L ++ (content ++ rest)) := by simp
    have h2 : pre.length + 1 = (pre ++ [1]).length := by simp
    rw [h1, h2, readDoubleBE_append _ _ (by simp [bytes8BE_length])]
    rw [List.take_left' (bytes8BE_length L), beVal_bytes8BE L hbits64]
  have hlen : asLen L = .ok content.length := by
    rw [asLen, hL, doubleBits_roundtrip content.length hx]
  have hP : pre.length + 9 = (pre ++ 1 :: bytes8BE L).length := by
    simp [bytes8BE_length]
  have hslice : jsSlice (pre ++ 1 :: (bytes8BE L ++ (content ++ rest)))
      (pre.length + 9) (pre.length + 9 + content.length) = content := by
    have h1 : pre ++ 1 :: (bytes8BE L ++ (content ++ rest)) =
        (pre ++ 1 :: bytes8BE L) ++ (content ++ rest) := by simp
    rw [h1, hP]
    exact jsSlice_append _ content rest
  rw [hassoc]
  conv_lhs => rw [deserializeAux]
  rw [hget]
  simp only [hread, hlen, bind_ok, hslice]
  cases deserializeAux (pre ++ 1 :: (bytes8BE L ++ (content ++ rest))) f
      (pre.length + 9 + content.length) with
  | error e => rfl
  | ok r => rfl

theorem deserializeAux_step_buf (content : List Nat)
    (hx : content.length < 2 ^ 53) (pre rest : List Nat) (f : Nat) :
    deserializeAux (pre ++ (serializeItem (.buf content) ++ rest)) (f + 1) pre.length =
      (deserializeAux (pre ++ (serializeItem (.buf content) ++ rest))
          f (pre.length + 9 + content.length)).map
        (fun r => Value.buf content :: r) := by
  have hassoc : pre ++ (serializeItem (.buf content) ++ rest) =
      pre ++ 6 :: (bytes8BE (natToDoubleBits content.length) ++ (content ++ rest)) := by
    simp [serializeItem]
  set L := natToDoubleBits content.length with hL
  have hget : (pre ++ 6 :: (bytes8BE L ++ (content ++ rest)))[pre.length]? = some 6 := by
    rw [List.getElem?_append_right (le_refl pre.length)]
    simp
  have hbits64 : L < 2 ^ 64 := by
    have := natToDoubleBits_lt content.length hx
    have h6364 : (2 : Nat) ^ 63 < 2 ^ 64 := by norm_num
    omega
  have hread : readDoubleBE (pre ++ 6 :: (bytes8BE L ++ (content ++ rest))) (pre.length + 1) =
      .ok L := by
    have h1 : pre ++ 6 :: (bytes8BE L ++ (content ++ rest)) =
        (pre ++ [6]) ++ (bytes8BE L ++ (content ++ rest)) := by simp
    have h2 : pre.length + 1 = (pre ++ [6]).length := by simp
    rw [h1, h2, readDoubleBE_append _ _ (by simp [bytes8BE_length])]
    rw [List.take_left' (bytes8BE_length L), beVal_bytes8BE L hbits64]
  have hlen : asLen L = .ok content.length := by
    rw [asLen, hL, doubleBits_roundtrip content.length hx]
  have hP : pre.length + 9 = (pre ++ 6 :: bytes8BE L).length := by
    simp [bytes8BE_length]
  have hslice : jsSlice (pre ++ 6 :: (bytes8BE L ++ (content ++ rest)))
      (pre.length + 9) (pre.length + 9 + content.length) = content := by
    have h1 : pre ++ 6 :: (bytes8BE L ++ (content ++ rest)) =
        (pre ++ 6 :: bytes8BE L) ++ (content ++ rest) := by simp
    rw [h1, hP]
    exact jsSlice_append _ content rest
  rw [hassoc]
  conv_lhs => rw [deserializeAux]
  rw [hget]
  simp only [hread, hlen, bind_ok, hslice]
  cases deserializeAux (pre ++ 6 :: (bytes8BE L ++ (content ++ rest))) f
      (pre.length + 9 + content.length) with
  | error e => rfl
  | ok r => rfl

theorem deserializeAux_step_bool (b : Bool) (pre rest : List Nat) (f : Nat) :
    deserializeAux (pre ++ (serializeItem (.bool b) ++ rest)) (f + 1) pre.length =
      (deserializeAux (pre ++ (serializeItem (.bool b) ++ rest)) f (pre.length + 2)).map
        (fun r => Value.bool b :: r) := by
  have hassoc : pre ++ (serializeItem (.bool b) ++ rest) =
      pre ++ 2 :: ((if b then 1 else 0) :: rest) := by
    simp [serializeItem]
  have hget : (pre ++ 2 :: ((if b then 1 else 0) :: rest))[pre.length]? = some 2 := by
    rw [List.getElem?_append_right (le_refl pre.length)]
    simp
  have hread : readUInt8 (pre ++ 2 :: ((if b then 1 else 0) :: rest)) (pre.length + 1) =
      .ok (if b then 1 else 0) := by
    have h1 : pre ++ 2 :: ((if b then 1 else 0) :: rest) =
        (pre ++ [2]) ++ ((if b then 1 else 0) :: rest) := by simp
    have h2 : pre.length + 1 = (pre ++ [2]).length := by simp
    rw [h1, h2, readUInt8_append]
  have hb : ((if b then 1 else 0 : Nat) == 1) = b := by cases b <;> rfl
  rw [hassoc]
  conv_lhs => rw [deserializeAux]
  rw [hget]
  simp only [hread, bind_ok, hb]
  cases deserializeAux (pre ++ 2 :: ((if b then 1 else 0) :: rest)) f (pre.length + 2) with
  | error e => rfl
  | ok r => rfl

theorem deserializeAux_step_null (pre rest : List Nat) (f : Nat) :
    deserializeAux (pre ++ (serializeItem .null ++ rest)) (f + 1) pre.length =
      (deserializeAux (pre ++ (serializeItem .null ++ rest)) f (pre.length + 1)).map
        (fun r => Value.null :: r) := by
  have hassoc : pre ++ (serializeItem .null ++ rest) = pre ++ 3 :: rest := by
    simp [serializeItem]
  have hget : (pre ++ 3 :: rest)[pre.length]? = some 3 := by
    rw [List.getElem?_append_right (le_refl pre.length)]
    simp
  rw [hassoc]
  conv_lhs => rw [deserializeAux]
  rw [hget]
  cases deserializeAux (pre ++ 3 :: rest) f (pre.length + 1) with
  | error e => rfl
  | ok r => rfl

theorem deserializeAux_step_undef (pre rest : List Nat) (f : Nat) :
    deserializeAux (pre ++ (serializeItem .undef ++ rest)) (f + 1) pre.length =
      (deserializeAux (pre ++ (serializeItem .undef ++ rest)) f (pre.length + 1)).map
        (fun r => Value.undef :: r) := by
  have hassoc : pre ++ (serializeItem .undef ++ rest) = pre ++ 4 :: rest := by
    simp [serializeItem]
  have hget : (pre ++ 4 :: rest)[pre.length]? = some 4 := by
    rw [List.getElem?_append_right (le_refl pre.length)]
    simp
  rw [hassoc]
  conv_lhs => rw [deserializeAux]
  rw [hget]
  cases deserializeAux (pre ++ 4 :: rest) f (pre.length + 1) with
  | error e => rfl
  | ok r => rfl

theorem deserializeAux_serialize :
    ∀ (v : List Value) (pre : List Nat) (fuel : Nat),
      (∀ x ∈ v, roundOK x = true) → v.length ≤ fuel →
      deserializeAux (pre ++ serialize v) fuel pre.length = .ok v
  | [], pre, fuel, _, _ => by
    have h : serialize [] = [] := rfl
    rw [h, List.append_nil]
    exact deserializeAux_at_end pre fuel
  | x :: v, pre, fuel, hwf, hfuel => by
    cases fuel with
    | zero => simp at hfuel
    | succ f =>
      have hx : roundOK x = true := hwf x (by simp)
      have hv : ∀ y ∈ v, roundOK y = true := fun y hy => hwf y (by simp [hy])
      have hf : v.length ≤ f := by
        simp only [List.length_cons] at hfuel
        omega
      have hre : pre ++ serialize (x :: v) = pre ++ (serializeItem x ++ serialize v) := by
        rw [serialize_cons]
      have hre2 : pre ++ (serializeItem x ++ serialize v) =
          (pre ++ serializeItem x) ++ serialize v := by simp
      rw [hre]
      cases x with
      | num bits =>
        have hb : bits < 2 ^ 64 := by simpa [roundOK] using hx
        rw [deserializeAux_step_num bits hb pre (serialize v) f]
        have hpos : pre.length + 9 = (pre ++ serializeItem (.num bits)).length := by
          simp [serializeItem, bytes8BE_length]
        rw [hpos, hre2,
            deserializeAux_serialize v (pre ++ serializeItem (.num bits)) f hv hf]
        rfl
      | str content =>
        have hb : content.length < 2 ^ 53 := by simpa [roundOK] using hx
        rw [deserializeAux_step_str content hb pre (serialize v) f]
        have hpos : pre.length + 9 + content.length =
            (pre ++ serializeItem (.str content)).length := by
          simp [serializeItem, bytes8BE_length]
          omega
        rw [hpos, hre2,
            deserializeAux_serialize v (pre ++ serializeItem (.str content)) f hv hf]
        rfl
      | buf content =>
        have hb : content.length < 2 ^ 53 := by simpa [roundOK] using hx
        rw [deserializeAux_step_buf content hb pre (serialize v) f]
        have hpos : pre.length + 9 + content.length =
            (pre ++ serializeItem (.buf content)).length := by
          simp [serializeItem, bytes8BE_length]
          omega
        rw [hpos, hre2,
            deserializeAux_serialize v (pre ++ serializeItem (.buf content)) f hv hf]
        rfl
      | bool b =>
        rw [deserializeAux_step_bool b pre (serialize v) f]
        have hpos : pre.length + 2 = (pre ++ serializeItem (.bool b)).length := by
          simp [serializeItem]
        rw [hpos, hre2,
            deserializeAux_serialize v (pre ++ serializeItem (.bool b)) f hv hf]
        rfl
      | null =>
        rw [deserializeAux_step_null pre (serialize v) f]
        have hpos : pre.length + 1 = (pre ++ serializeItem .null).length := by
          simp [serializeItem]
        rw [hpos, hre2,
            deserializeAux_serialize v (pre ++ serializeItem .null) f hv hf]
        rfl
      | undef =>
        rw [deserializeAux_step_undef pre (serialize v) f]
        have hpos : pre.length + 1 = (pre ++ serializeItem .undef).length := by
          simp [serializeItem]
        rw [hpos, hre2,
            deserializeAux_serialize v (pre ++ serializeItem .undef) f hv hf]
        rfl
      | obj j =>
        simp [roundOK] at hx

theorem serialize_length_ge (v : List Value) : v.length ≤ (serialize v).length := by
  induction v with
  | nil => simp [serialize]
  | cons x v ih =>
    rw [serialize_cons, List.length_append]
    have hchunk : 1 ≤ (serializeItem x).length := by
      cases x <;> simp [serializeItem]
    simp only [List.length_cons]
    omega

theorem deserialize_serialize (v : List Value) (h : ∀ x ∈ v, roundOK x = true) :
    deserialize (serialize v) = .ok v := by
  have := deserializeAux_serialize v [] (serialize v).length h (serialize_length_ge v)
  simpa [deserialize] using this

theorem serializeHeaderOld_length (i a : Bool) (name : List Nat) (mID : Nat) :
    (serializeHeaderOld i name a mID).length = 26 + name.length := by
  simp [serializeHeaderOld, bytes8BE_length]
  omega

theorem deserializeHeaderOld_serialize (i a : Bool) (name : List Nat) (mID : Nat)
    (hn : 26 + name.length < 2 ^ 53) (hm : mID < 2 ^ 53) (extra : List Nat) :
    deserializeHeaderOld (serializeHeaderOld i name a mID ++ extra) =
      .ok { isInternal := i, messageName := name, needACK := a,
            messageIDBits := natToDoubleBits mID, headerLength := 26 + name.length } := by
  have h6364 : (2 : Nat) ^ 63 < 2 ^ 64 := by norm_num
  set iB : Nat := if i then 1 else 0 with hiB
  set aB : Nat := if a then 1 else 0 with haB
  set L : Nat := 8 + 1 + 8 + name.length + 1 + 8 with hLdef
  have hL : L = 26 + name.length := by omega
  have hdata : serializeHeaderOld i name a mID ++ extra =
      bytes8BE (natToDoubleBits L) ++ (iB :: (bytes8BE (natToDoubleBits name.length) ++
        (name ++ (aB :: (bytes8BE (natToDoubleBits mID) ++ extra))))) := by
    simp [serializeHeaderOld]
  rw [hdata]
  set rest1 := iB :: (bytes8BE (natToDoubleBits name.length) ++
      (name ++ (aB :: (bytes8BE (natToDoubleBits mID) ++ extra)))) with hrest1
  have hbitsL : natToDoubleBits L < 2 ^ 64 := by
    have := natToDoubleBits_lt L (by omega)
    omega
  have hread0 : readDoubleBE (bytes8BE (natToDoubleBits L) ++ rest1) 0 =
      .ok (natToDoubleBits L) := by
    have h0 : (0 : Nat) = (([] : List Nat)).length := rfl
    rw [show bytes8BE (natToDoubleBits L) ++ rest1 =
          ([] : List Nat) ++ (bytes8BE (natToDoubleBits L) ++ rest1) from rfl, h0,
        readDoubleBE_append _ _ (by simp [bytes8BE_length]),
        List.take_left' (bytes8BE_length _), beVal_bytes8BE _ hbitsL]
  have hlenL : asLen (natToDoubleBits L) = .ok L := by
    rw [asLen, doubleBits_roundtrip L (by omega)]
  rw [deserializeHeaderOld]
  rw [hread0, bind_ok, hlenL, bind_ok]
  -- readUInt8 at 8
  have hu8 : readUInt8 (bytes8BE (natToDoubleBits L) ++ rest1) 8 = .ok iB := by
    have h8 : (8 : Nat) = (bytes8BE (natToDoubleBits L)).length := (bytes8BE_length _).symm
    rw [hrest1, h8, readUInt8_append]
  rw [hu8, bind_ok]
  -- readDoubleBE at 9
  have hbitsN : natToDoubleBits name.length < 2 ^ 64 := by
    have := natToDoubleBits_lt name.length (by omega)
    omega
  have hread9 : readDoubleBE (bytes8BE (natToDoubleBits L) ++ rest1) 9 =
      .ok (natToDoubleBits name.length) := by
    have hsplit : bytes8BE (natToDoubleBits L) ++ rest1 =
        (bytes8BE (natToDoubleBits L) ++ [iB]) ++ (bytes8BE (natToDoubleBits name.length) ++
          (name ++ (aB :: (bytes8BE (natToDoubleBits mID) ++ extra)))) := by
      rw [hrest1]; simp
    have h9 : (9 : Nat) = (bytes8BE (natToDoubleBits L) ++ [iB]).length := by
      simp [bytes8BE_length]
    rw [hsplit, h9, readDoubleBE_append _ _ (by simp [bytes8BE_length]),
        List.take_left' (bytes8BE_length _), beVal_bytes8BE _ hbitsN]
  rw [hread9, bind_ok]
  have hlenN : asLen (natToDoubleBits name.length) = .ok name.length := by
    rw [asLen, doubleBits_roundtrip name.length (by omega)]
  rw [hlenN, bind_ok]
  -- name slice at 17
  have hslice : jsSlice (bytes8BE (natToDoubleBits L) ++ rest1) 17 (17 + name.length) = name := by
    have hsplit : bytes8BE (natToDoubleBits L) ++ rest1 =
        (bytes8BE (natToDoubleBits L) ++ iB :: bytes8BE (natToDoubleBits name.length)) ++
          (name ++ (aB :: (bytes8BE (natToDoubleBits mID) ++ extra))) := by
      rw [hrest1]; simp
    have h17 : (17 : Nat) =
        (bytes8BE (natToDoubleBits L) ++ iB :: bytes8BE (natToDoubleBits name.length)).length := by
      simp [bytes8BE_length]
    rw [hsplit, h17]
    exact jsSlice_append _ name _
  rw [hslice]
  -- readUInt8 at 17 + name.length
  have hu8a : readUInt8 (bytes8BE (natToDoubleBits L) ++ rest1) (17 + name.length) = .ok aB := by
    have hsplit : bytes8BE (natToDoubleBits L) ++ rest1 =
        ((bytes8BE (natToDoubleBits L) ++ iB :: bytes8BE (natToDoubleBits name.length)) ++ name) ++
          (aB :: (bytes8BE (natToDoubleBits mID) ++ extra)) := by
      rw [hrest1]; simp
    have h17n : (17 + name.length : Nat) =
        ((bytes8BE (natToDoubleBits L) ++ iB :: bytes8BE (natToDoubleBits name.length)) ++
          name).length := by
      simp [bytes8BE_length]
      omega
    rw [hsplit, h17n, readUInt8_append]
  rw [hu8a, bind_ok]
  -- readDoubleBE at 18 + name.length
  have hbitsM : natToDoubleBits mID < 2 ^ 64 := by
    have := natToDoubleBits_lt mID hm
    omega
  have hread18 : readDoubleBE (bytes8BE (natToDoubleBits L) ++ rest1) (18 + name.length) =
      .ok (natToDoubleBits mID) := by
    have hsplit : bytes8BE (natToDoubleBits L) ++ rest1 =
        (((bytes8BE (natToDoubleBits L) ++ iB :: bytes8BE (natToDoubleBits name.length)) ++ name)
          ++ [aB]) ++ (bytes8BE (natToDoubleBits mID) ++ extra) := by
      rw [hrest1]; simp
    have h18n : (18 + name.length : Nat) =
        ((((bytes8BE (natToDoubleBits L) ++ iB :: bytes8BE (natToDoubleBits name.length)) ++ name)
          ++ [aB])).length := by
      simp [bytes8BE_length]
      omega
    rw [hsplit, h18n, readDoubleBE_append _ _ (by simp [bytes8BE_length]),
        List.take_left' (bytes8BE_length _), beVal_bytes8BE _ hbitsM]
  rw [hread18, bind_ok]
  have hib : (iB == 1) = i := by rw [hiB]; cases i <;> rfl
  have hab : (aB == 1) = a := by rw [haB]; cases a <;> rfl
  rw [hib, hab, hL]

theorem serialize_header_tuple_length (i a : Bool) (m : Nat) (name : List Nat) :
    (serialize [.bool i, .bool a, .num (natToDoubleBits m), .str name]).length =
      22 + name.length := by
  simp [serialize, serializeItem, bytes8BE_length]
  omega

theorem serializeHeaderC_length (i a : Bool) (m : Nat) (name : List Nat) :
    (serializeHeaderC i a m name).length = 30 + name.length := by
  rw [serializeHeaderC]
  rw [List.length_append, bytes8BE_length, serialize_header_tuple_length]
  omega

theorem deserializeHeaderC_serialize (i a : Bool) (m : Nat) (name : List Nat)
    (hm : m < 2 ^ 53) (hn : 22 + name.length < 2 ^ 53) (body : List Nat) :
    deserializeHeaderC (serializeHeaderC i a m name ++ body) =
      .ok { isInternal := i, needACK := a, messageID := m, messageName := name,
            headerLength := 8 + (22 + name.length) } := by
  set inner := serialize [.bool i, .bool a, .num (natToDoubleBits m), .str name] with hinner
  have hilen : inner.length = 22 + name.length := serialize_header_tuple_length i a m name
  have hbitsI : natToDoubleBits inner.length < 2 ^ 64 := by
    have := natToDoubleBits_lt inner.length (by omega)
    have h6364 : (2 : Nat) ^ 63 < 2 ^ 64 := by norm_num
    omega
  have hdata : serializeHeaderC i a m name ++ body =
      bytes8BE (natToDoubleBits inner.length) ++ (inner ++ body) := by
    rw [serializeHeaderC]
    simp
  rw [hdata, deserializeHeaderC]
  have hread0 : readDoubleBE (bytes8BE (natToDoubleBits inner.length) ++ (inner ++ body)) 0 =
      .ok (natToDoubleBits inner.length) := by
    have h0 : (0 : Nat) = (([] : List Nat)).length := rfl
    rw [show bytes8BE (natToDoubleBits inner.length) ++ (inner ++ body) =
          ([] : List Nat) ++ (bytes8BE (natToDoubleBits inner.length) ++ (inner ++ body)) from rfl,
        h0, readDoubleBE_append _ _ (by simp [bytes8BE_length]),
        List.take_left' (bytes8BE_length _), beVal_bytes8BE _ hbitsI]
  rw [hread0, bind_ok]
  have hlenI : asLen (natToDoubleBits inner.length) = .ok inner.length := by
    rw [asLen, doubleBits_roundtrip inner.length (by omega)]
  rw [hlenI, bind_ok]
  have hslice : jsSlice (bytes8BE (natToDoubleBits inner.length) ++ (inner ++ body)) 8
      (inner.length + 8) = inner := by
    have h8 : (8 : Nat) = (bytes8BE (natToDoubleBits inner.length)).length :=
      (bytes8BE_length _).symm
    have hcomm : inner.length + 8 = 8 + inner.length := by omega
    rw [hcomm, h8]
    exact jsSlice_append _ inner body
  rw [hslice]
  have hdec : deserialize inner =
      .ok [.bool i, .bool a, .num (natToDoubleBits m), .str name] := by
    rw [hinner]
    apply deserialize_serialize
    intro x hx
    simp only [List.mem_cons, List.not_mem_nil, or_false] at hx
    rcases hx with h | h | h | h <;> subst h
    · rfl
    · rfl
    · simp only [roundOK, decide_eq_true_eq]
      have := natToDoubleBits_lt m hm
      have h6364 : (2 : Nat) ^ 63 < 2 ^ 64 := by norm_num
      omega
    · simp only [roundOK, decide_eq_true_eq]
      omega
  rw [hdec, bind_ok]
  simp only [doubleBits_roundtrip m hm, hilen]


theorem find?_append_last (q' : List PendingSend) (c : PendingSend)
    (h : ∀ x ∈ q', x.messageID ≠ c.messageID) :
    (q' ++ [c]).find? (fun x => x.messageID == c.messageID) = some c := by
  rw [List.find?_append]
  have h1 : q'.find? (fun x => x.messageID == c.messageID) = none := by
    rw [List.find?_eq_none]
    intro x hx
    simp [h x hx]
  rw [h1]
  simp

theorem removeId_append_last (q' : List PendingSend) (c : PendingSend)
    (h : ∀ x ∈ q', x.messageID ≠ c.messageID) :
    removeId (q' ++ [c]) c.messageID = q' := by
  rw [removeId, List.filter_append]
  have h1 : q'.filter (fun x => x.messageID != c.messageID) = q' :=
    List.filter_eq_self.mpr (fun x hx => by simp [h x hx])
  have h2 : [c].filter (fun x => x.messageID != c.messageID) = [] := by simp
  rw [h1, h2, List.append_nil]

theorem nodup_ids_last (q' : List PendingSend) (c : PendingSend)
    (h : ((q' ++ [c]).map (fun x => x.messageID)).Nodup) :
    ∀ x ∈ q', x.messageID ≠ c.messageID := by
  intro x hx
  rw [List.map_append, List.nodup_append] at h
  intro heq
  exact h.2.2 (List.mem_map_of_mem _ hx) (by simp [heq])

theorem drainStep_last (st : SocketState) (q' : List PendingSend) (c : PendingSend)
    (hq : st.queue = q' ++ [c])
    (hnodup : (st.queue.map (fun x => x.messageID)).Nodup)
    (hns : isSettled st c.messageID = false) :
    drainStep st c.messageID =
      { st with
        queue := q',
        settled := st.settled ++ [(c.messageID, Outcome.rejected "连接中断")] } := by
  have hne : ∀ x ∈ q', x.messageID ≠ c.messageID :=
    nodup_ids_last q' c (hq ▸ hnodup)
  have hfind : st.queue.find? (fun x => x.messageID == c.messageID) = some c := by
    rw [hq]; exact find?_append_last q' c hne
  have hrem : removeId st.queue c.messageID = q' := by
    rw [hq]; exact removeId_append_last q' c hne
  have hns2 : isSettled { st with queue := q' } c.messageID = false := hns
  have hsettle : settleOnce { st with queue := q' } c.messageID (outcomeOf (some "连接中断")) =
      { st with
        queue := q',
        settled := st.settled ++ [(c.messageID, Outcome.rejected "连接中断")] } := by
    rw [settleOnce, if_neg (by rw [hns2]; simp)]
    rfl
  rw [drainStep, cancelOp, hfind]
  cases hsent : c.sent with
  | false =>
    simp only [hsent, Bool.false_eq_true, if_false, if_true, hrem, hsettle]
  | true =>
    simp only [hsent, if_true]
    cases hq' : q' with
    | nil =>
      subst hq'
      have hhead : st.queue.head? = some c := by rw [hq]; rfl
      simp only [ctrlAck, hhead, beq_self_eq_true, if_true, hrem, hsettle]
      simp
    | cons h t =>
      subst hq'
      have hhead : st.queue.head? = some h := by rw [hq]; rfl
      have hne2 : (h.messageID == c.messageID) = false := by
        simp [hne h (by simp)]
      simp only [ctrlAck, hhead, hne2, Bool.false_eq_true, if_false, hrem, hsettle]

theorem closeDrain_go (q : List PendingSend) : ∀ (st : SocketState), st.queue = q →
    (st.queue.map (fun x => x.messageID)).Nodup →
    (∀ c ∈ st.queue, isSettled st c.messageID = false) →
    (q.reverse.map (fun c => c.messageID)).foldl drainStep st =
      { st with
        queue := [],
        settled := st.settled ++
          q.reverse.map (fun c => (c.messageID, Outcome.rejected "连接中断")) } := by
  induction q using List.reverseRecOn with
  | nil =>
    intro st hq _ _
    simp only [List.reverse_nil, List.map_nil, List.foldl_nil, List.append_nil]
    rw [← hq]
  | append_singleton q' c ih =>
    intro st hq hnodup hdisj
    rw [List.reverse_append, List.reverse_singleton, List.singleton_append, List.map_cons,
        List.foldl_cons]
    have hstep := drainStep_last st q' c hq hnodup (hdisj c (by rw [hq]; simp))
    rw [hstep]
    set st1 : SocketState :=
      { st with
        queue := q',
        settled := st.settled ++ [(c.messageID, Outcome.rejected "连接中断")] } with hst1
    have hq1 : st1.queue = q' := rfl
    have hnodup1 : (st1.queue.map (fun x => x.messageID)).Nodup := by
      rw [hq1]
      rw [hq, List.map_append] at hnodup
      exact (List.nodup_append.mp hnodup).1
    have hne : ∀ x ∈ q', x.messageID ≠ c.messageID :=
      nodup_ids_last q' c (hq ▸ hnodup)
    have hdisj1 : ∀ x ∈ st1.queue, isSettled st1 x.messageID = false := by
      intro x hx
      rw [hq1] at hx
      have hold : isSettled st x.messageID = false := hdisj x (by rw [hq]; simp [hx])
      have h1 : (c.messageID == x.messageID) = false := by
        simp only [beq_eq_false_iff_ne, ne_eq]
        exact fun hcx => (hne x hx) hcx.symm
      simp only [isSettled, hst1, List.any_append, List.any_cons, List.any_nil] at hold ⊢
      simp [hold, h1]
    have hrec := ih st1 hq1 hnodup1 hdisj1
    rw [hrec]
    simp [hst1]

theorem find?_of_mem_nodup (q : List PendingSend) (c : PendingSend)
    (hnodup : (q.map (fun x => x.messageID)).Nodup) (hc : c ∈ q) :
    q.find? (fun x => x.messageID == c.messageID) = some c := by
  induction q with
  | nil => cases hc
  | cons a q ih =>
    simp only [List.map_cons, List.nodup_cons] at hnodup
    rcases List.mem_cons.mp hc with h | h
    · subst h
      exact List.find?_cons_of_pos _ (by simp)
    · have hne : a.messageID ≠ c.messageID := by
        intro heq
        exact hnodup.1 (heq ▸ List.mem_map_of_mem _ h)
      rw [List.find?_cons_of_neg _ (by simp [hne])]
      exact ih hnodup.2 h

theorem find?_of_absent (q : List PendingSend) (id : Nat)
    (h : ∀ c ∈ q, c.messageID ≠ id) :
    q.find? (fun x => x.messageID == id) = none := by
  rw [List.find?_eq_none]
  intro x hx
  simp [h x hx]

theorem removeId_of_absent (q : List PendingSend) (id : Nat)
    (h : ∀ c ∈ q, c.messageID ≠ id) : removeId q id = q :=
  List.filter_eq_self.mpr (fun x hx => by simp [h x hx])

theorem map_mark_fresh (q : List PendingSend) (mid : Nat)
    (h : ∀ c ∈ q, c.messageID ≠ mid) :
    q.map (fun x => if x.messageID == mid then { x with sent := true } else x) = q := by
  have hcongr := List.map_congr_left (l := q)
    (f := fun x => if x.messageID == mid then { x with sent := true } else x)
    (g := fun x => x) (fun a ha => by simp [h a ha])
  simpa using hcongr

/-- Evaluation of `control.send()` on a fresh entry just appended at the tail of the
queue: marks it sent and logs the write. -/
theorem ctrlSend_append_fresh (st : SocketState) (q : List PendingSend)
    (c : PendingSend) (mid : Nat) (hq : st.queue = q ++ [c]) (hmid : c.messageID = mid)
    (hfresh : ∀ x ∈ q, x.messageID ≠ mid) (hsent : c.sent = false) :
    ctrlSend st mid =
      { st with
        queue := q ++ [{ c with sent := true }],
        writes := st.writes ++ [(mid, c.needACK)] } := by
  rw [ctrlSend, hq]
  have hfind : (q ++ [c]).find? (fun x => x.messageID == mid) = some c := by
    rw [← hmid]
    exact find?_append_last q c (fun x hx => hmid ▸ hfresh x hx)
  rw [hfind]
  simp only [hsent, Bool.false_eq_true, if_false]
  rw [List.map_append, map_mark_fresh q mid hfresh]
  simp [hmid]

/-- Evaluation of `cancelOp` on a queued, not-yet-sent entry. -/
theorem cancelOp_found_unsent (st : SocketState) (c : PendingSend) (err : Option String)
    (hnodup : (st.queue.map (fun x => x.messageID)).Nodup) (hc : c ∈ st.queue)
    (hsent : c.sent = false) (hns : isSettled st c.messageID = false) :
    cancelOp st c.messageID err =
      ({ st with
         queue := removeId st.queue c.messageID,
         settled := st.settled ++ [(c.messageID, outcomeOf err)] }, true) := by
  rw [cancelOp, find?_of_mem_nodup st.queue c hnodup hc]
  simp only [hsent, Bool.false_eq_true, if_false]
  rw [settleOnce, if_neg (by
    rw [show isSettled { st with queue := removeId st.queue c.messageID } c.messageID =
          isSettled st c.messageID from rfl, hns]
    simp)]

/-- Evaluation of `cancelOp` on an already-sent entry: reports failure, changes nothing. -/
theorem cancelOp_found_sent (st : SocketState) (c : PendingSend) (err : Option String)
    (hnodup : (st.queue.map (fun x => x.messageID)).Nodup) (hc : c ∈ st.queue)
    (hsent : c.sent = true) :
    cancelOp st c.messageID err = (st, false) := by
  rw [cancelOp, find?_of_mem_nodup st.queue c hnodup hc]
  simp [hsent]

/-- Evaluation of `cancelOp` on an id not in the queue: reports failure, changes nothing. -/
theorem cancelOp_absent (st : SocketState) (id : Nat) (err : Option String)
    (h : ∀ c ∈ st.queue, c.messageID ≠ id) :
    cancelOp st id err = (st, false) := by
  rw [cancelOp, find?_of_absent st.queue id h]

/-- Evaluation of `sendOp` when the payload yields a body and the frame passes the size
check: the entry is appended, and it transmits at once exactly when `prior`
is set or the queue was empty. -/
theorem sendOp_ok (st : SocketState) (isInternal prior : Bool) (name : List Nat)
    (needACK : Bool) (d : SendData) (body : List Nat) (hd : sendBody d = .ok body)
    (hfresh : ∀ c ∈ st.queue, c.messageID ≠ st.messageID)
    (hsize : overMax st.maxPayload
      (serializeHeaderOld isInternal name needACK st.messageID ++ body).length = false) :
    sendOp st isInternal prior name needACK d =
      ({ st with
         messageID := st.messageID + 1,
         queue := st.queue ++
           [{ messageID := st.messageID,
              data := serializeHeaderOld isInternal name needACK st.messageID ++ body,
              needACK := needACK, sent := (prior || st.queue.isEmpty) }],
         writes := st.writes ++
           (if prior || st.queue.isEmpty then [(st.messageID, needACK)] else []) },
       .accepted st.messageID) := by
  rw [sendOp]
  simp only [hd, hsize, Bool.false_eq_true, if_false]
  have hset : mapSet st.queue
      { messageID := st.messageID,
        data := serializeHeaderOld isInternal name needACK st.messageID ++ body,
        needACK := needACK, sent := false } =
      st.queue ++
        [{ messageID := st.messageID,
           data := serializeHeaderOld isInternal name needACK st.messageID ++ body,
           needACK := needACK, sent := false }] := by
    rw [mapSet, if_neg]
    simp only [List.any_eq_true, not_exists]
    intro x
    rw [not_and]
    intro hx
    simp [hfresh x hx]
  rw [hset]
  by_cases hp : (prior || st.queue.isEmpty) = true
  · rw [if_pos (by
      rcases Bool.or_eq_true_iff.mp hp with h | h
      · simp [h]
      · simp [List.isEmpty_iff.mp h])]
    rw [ctrlSend_append_fresh _ st.queue _ st.messageID rfl rfl hfresh rfl]
    simp only [hp, if_true]
  · have hp' : (prior || st.queue.isEmpty) = false := by
      simpa using hp
    have hpr : prior = false := by
      rcases Bool.or_eq_false_iff.mp hp' with ⟨h1, _⟩
      exact h1
    have hqe : st.queue.isEmpty = false := by
      rcases Bool.or_eq_false_iff.mp hp' with ⟨_, h2⟩
      exact h2
    have hqlen : 0 < st.queue.length := by
      cases hq : st.queue with
      | nil => rw [hq] at hqe; simp at hqe
      | cons a l => simp [hq]
    rw [if_neg (by
      simp only [hpr, Bool.false_or, List.length_append, List.length_cons, List.length_nil,
        beq_iff_eq]
      omega)]
    simp [hp']

/-- Evaluation of `sendOp` when the frame exceeds the configured `maxPayload`: the promise
rejects synchronously, nothing is queued or transmitted. -/
theorem sendOp_tooBig (st : SocketState) (isInternal prior : Bool) (name : List Nat)
    (needACK : Bool) (d : SendData) (body : List Nat) (hd : sendBody d = .ok body)
    (hsize : overMax st.maxPayload
      (serializeHeaderOld isInternal name needACK st.messageID ++ body).length = true)
    (hns : isSettled st st.messageID = false) :
    sendOp st isInternal prior name needACK d =
      ({ st with
         messageID := st.messageID + 1,
         settled := st.settled ++ [(st.messageID, Outcome.rejected "发送的数据大小超过了限制")] },
       .failed st.messageID "发送的数据大小超过了限制") := by
  rw [sendOp]
  simp only [hd, hsize, if_true]
  rw [settleOnce, if_neg (by
    rw [show isSettled { st with messageID := st.messageID + 1 } st.messageID =
          isSettled st st.messageID from rfl, hns]
    simp)]

/-- Evaluation of `sendOp` when building the body itself throws (a raw buffer without the
`_serialized` marker): the promise rejects synchronously, nothing queued. -/
theorem sendOp_errBody (st : SocketState) (isInternal prior : Bool) (name : List Nat)
    (needACK : Bool) (d : SendData) (e : String) (hd : sendBody d = .error e)
    (hns : isSettled st st.messageID = false) :
    sendOp st isInternal prior name needACK d =
      ({ st with
         messageID := st.messageID + 1,
         settled := st.settled ++ [(st.messageID, Outcome.rejected e)] },
       .failed st.messageID e) := by
  rw [sendOp]
  simp only [hd]
  rw [settleOnce, if_neg (by
    rw [show isSettled { st with messageID := st.messageID + 1 } st.messageID =
          isSettled st st.messageID from rfl, hns]
    simp)]

theorem settleOnce_queue (st : SocketState) (id : Nat) (o : Outcome) :
    (settleOnce st id o).queue = st.queue := by
  rw [settleOnce]
  split <;> rfl

/-- Evaluation of `control.ack` for an id that is not the head's id: delete and settle,
no head advance. -/
theorem ctrlAck_not_first (st : SocketState) (id : Nat) (err : Option String)
    (hne : ∀ h0, st.queue.head? = some h0 → h0.messageID ≠ id) :
    ctrlAck st id err = settleOnce { st with queue := removeId st.queue id } id (outcomeOf err) := by
  rw [ctrlAck]
  cases hh : st.queue.head? with
  | none => simp [hh]
  | some h0 =>
    have : (h0.messageID == id) = false := by simp [hne h0 hh]
    simp [hh, this]

/-- Evaluation of `control.ack` on the head of a one-element queue: delete and settle,
the queue is empty so nothing advances. -/
theorem ctrlAck_first_last (st : SocketState) (c : PendingSend) (err : Option String)
    (hq : st.queue = [c]) :
    ctrlAck st c.messageID err =
      settleOnce { st with queue := [] } c.messageID (outcomeOf err) := by
  rw [ctrlAck]
  have hh : st.queue.head? = some c := by rw [hq]; rfl
  have hrem : removeId st.queue c.messageID = [] := by
    rw [hq, removeId]
    simp
  have hsq : (settleOnce { st with queue := ([] : List PendingSend) } c.messageID
      (outcomeOf err)).queue = [] := settleOnce_queue _ _ _
  simp [hh, hrem, hsq]

/-- Evaluation of `control.send()` on the (unsent) head of the queue. -/
theorem ctrlSend_head (st : SocketState) (h' : PendingSend) (rest : List PendingSend)
    (hq : st.queue = h' :: rest) (hsent : h'.sent = false)
    (hfresh : ∀ x ∈ rest, x.messageID ≠ h'.messageID) :
    ctrlSend st h'.messageID =
      { st with
        queue := { h' with sent := true } :: rest,
        writes := st.writes ++ [(h'.messageID, h'.needACK)] } := by
  rw [ctrlSend, hq]
  rw [List.find?_cons_of_pos _ (by simp)]
  simp only [hsent, Bool.false_eq_true, if_false]
  rw [List.map_cons]
  simp only [beq_self_eq_true, if_true]
  rw [map_mark_fresh rest h'.messageID hfresh]

/-- Evaluation of `control.ack` on the head of a queue with a successor: delete, settle,
and transmit the (necessarily unsent, by the single-flight invariant) new
head. -/
theorem ctrlAck_first_advance (st : SocketState) (c h' : PendingSend)
    (rest : List PendingSend) (err : Option String)
    (hq : st.queue = c :: (h' :: rest))
    (hnodup : (st.queue.map (fun x => x.messageID)).Nodup)
    (hsent : h'.sent = false) :
    ctrlAck st c.messageID err =
      { st with
        queue := { h' with sent := true } :: rest,
        settled := (settleOnce { st with queue := h' :: rest } c.messageID (outcomeOf err)).settled,
        writes := st.writes ++ [(h'.messageID, h'.needACK)] } := by
  rw [ctrlAck]
  have hh : st.queue.head? = some c := by rw [hq]; rfl
  have hne : ∀ x ∈ h' :: rest, x.messageID ≠ c.messageID := by
    rw [hq] at hnodup
    simp only [List.map_cons, List.nodup_cons] at hnodup
    intro x hx heq
    exact hnodup.1 (heq ▸ List.mem_map_of_mem _ hx)
  have hrem : removeId st.queue c.messageID = h' :: rest := by
    rw [hq, removeId, List.filter_cons_of_neg (by simp), List.filter_eq_self.mpr]
    intro x hx
    simp [hne x hx]
  have hfresh2 : ∀ x ∈ rest, x.messageID ≠ h'.messageID := by
    rw [hq] at hnodup
    simp only [List.map_cons, List.nodup_cons] at hnodup
    intro x hx heq
    exact hnodup.2.1 (heq ▸ List.mem_map_of_mem _ hx)
  simp only [hh, beq_self_eq_true, if_true, hrem]
  cases hsettled : isSettled st c.messageID with
  | true =>
    have : settleOnce { st with queue := h' :: rest } c.messageID (outcomeOf err) =
        { st with queue := h' :: rest } := by
      rw [settleOnce, if_pos (by
        rw [show isSettled { st with queue := h' :: rest } c.messageID =
              isSettled st c.messageID from rfl, hsettled])]
    rw [this]
    simp only [List.head?_cons]
    rw [ctrlSend_head { st with queue := h' :: rest } h' rest rfl hsent hfresh2]
  | false =>
    have : settleOnce { st with queue := h' :: rest } c.messageID (outcomeOf err) =
        { st with
          queue := h' :: rest,
          settled := st.settled ++ [(c.messageID, outcomeOf err)] } := by
      rw [settleOnce, if_neg (by
        rw [show isSettled { st with queue := h' :: rest } c.messageID =
              isSettled st c.messageID from rfl, hsettled]
        simp)]
    rw [this]
    simp only [List.head?_cons]
    rw [ctrlSend_head
      { st with
        queue := h' :: rest,
        settled := st.settled ++ [(c.messageID, outcomeOf err)] } h' rest rfl hsent hfresh2]

/-- Receiving a well-formed `"ack"` frame reduces to looking up the
acknowledged id and, when present, settling it via `control.ack()`. -/
theorem receiveData_ackFrame (st : SocketState) (k m : Nat)
    (hk : k < 2 ^ 53) (hm : m < 2 ^ 53) :
    receiveData st (ackFrame k m) =
      (match st.queue.find? (fun c => c.messageID == m) with
       | some _ => ctrlAck st m none
       | none => st) := by
  have hhdr : deserializeHeaderOld (ackFrame k m) =
      .ok { isInternal := true, messageName := ackName, needACK := false,
            messageIDBits := natToDoubleBits k, headerLength := 26 + ackName.length } := by
    rw [ackFrame]
    exact deserializeHeaderOld_serialize true false ackName k (by decide) hk _
  have hdrop : (ackFrame k m).drop (26 + ackName.length) =
      serialize [.num (natToDoubleBits m)] := by
    rw [ackFrame]
    exact List.drop_left' (by rw [serializeHeaderOld_length])
  have hbody : deserialize (serialize [.num (natToDoubleBits m)]) =
      .ok [.num (natToDoubleBits m)] := by
    apply deserialize_serialize
    intro x hx
    simp only [List.mem_singleton] at hx
    subst hx
    simp only [roundOK, decide_eq_true_eq]
    have := natToDoubleBits_lt m hm
    have h6364 : (2 : Nat) ^ 63 < 2 ^ 64 := by norm_num
    omega
  rw [receiveData, hhdr]
  simp only [Bool.false_eq_true, if_false, if_true, hdrop, hbody, beq_self_eq_true,
    List.head?_cons, doubleBits_roundtrip m hm]

theorem settleOnce_settled (st : SocketState) (id : Nat) (o : Outcome) :
    (settleOnce st id o).settled =
      if isSettled st id = true then st.settled else st.settled ++ [(id, o)] := by
  rw [settleOnce]
  split <;> rfl

theorem ctrlSend_settled (st : SocketState) (id : Nat) :
    (ctrlSend st id).settled = st.settled := by
  rw [ctrlSend]
  cases h : st.queue.find? (fun c => c.messageID == id) with
  | none => rfl
  | some c => by_cases hs : c.sent <;> simp [hs]

theorem ctrlSend_errors (st : SocketState) (id : Nat) :
    (ctrlSend st id).errors = st.errors := by
  rw [ctrlSend]
  cases h : st.queue.find? (fun c => c.messageID == id) with
  | none => rfl
  | some c => by_cases hs : c.sent <;> simp [hs]

theorem ctrlSend_ids (st : SocketState) (id : Nat) :
    queueIds (ctrlSend st id) = queueIds st := by
  rw [ctrlSend]
  cases h : st.queue.find? (fun c => c.messageID == id) with
  | none => rfl
  | some c =>
    by_cases hs : c.sent
    · simp [hs]
    · simp only [hs, Bool.false_eq_true, if_false, queueIds, List.map_map]
      apply List.map_congr_left
      intro a _
      by_cases ha : a.messageID = id <;> simp [ha]

theorem removeId_ids (q : List PendingSend) (id : Nat) :
    (removeId q id).map (fun c => c.messageID) =
      (q.map (fun c => c.messageID)).filter (fun j => j != id) := by
  induction q with
  | nil => rfl
  | cons a q ih =>
    rw [removeId] at ih ⊢
    by_cases h : (a.messageID != id) = true
    · simp only [List.filter_cons, List.map_cons, h, if_true, List.map_cons, ih]
    · have h' : (a.messageID != id) = false := by simpa using h
      simp only [List.filter_cons, List.map_cons, h', Bool.false_eq_true, if_false, ih]

theorem ctrlAck_settled (st : SocketState) (id : Nat) (err : Option String) :
    (ctrlAck st id err).settled =
      if isSettled st id = true then st.settled else st.settled ++ [(id, outcomeOf err)] := by
  have hbase : (settleOnce { st with queue := removeId st.queue id } id (outcomeOf err)).settled =
      if isSettled st id = true then st.settled
      else st.settled ++ [(id, outcomeOf err)] :=
    settleOnce_settled _ _ _
  simp only [ctrlAck]
  split
  · split
    · rw [ctrlSend_settled]
      exact hbase
    · exact hbase
  · exact hbase

theorem ctrlAck_ids (st : SocketState) (id : Nat) (err : Option String) :
    queueIds (ctrlAck st id err) = (queueIds st).filter (fun j => j != id) := by
  have hbase : queueIds (settleOnce { st with queue := removeId st.queue id } id (outcomeOf err)) =
      (queueIds st).filter (fun j => j != id) := by
    rw [queueIds, settleOnce_queue]
    exact removeId_ids st.queue id
  simp only [ctrlAck]
  split
  · split
    · rw [ctrlSend_ids]
      exact hbase
    · exact hbase
  · exact hbase

theorem ctrlAck_errors (st : SocketState) (id : Nat) (err : Option String) :
    (ctrlAck st id err).errors = st.errors := by
  have hbase : (settleOnce { st with queue := removeId st.queue id } id (outcomeOf err)).errors =
      st.errors := by
    rw [settleOnce]
    split <;> rfl
  simp only [ctrlAck]
  split
  · split
    · rw [ctrlSend_errors]
      exact hbase
    · exact hbase
  · exact hbase

theorem settleOnce_messageID (st : SocketState) (id : Nat) (o : Outcome) :
    (settleOnce st id o).messageID = st.messageID := by
  rw [settleOnce]
  split <;> rfl

theorem settleOnce_writes (st : SocketState) (id : Nat) (o : Outcome) :
    (settleOnce st id o).writes = st.writes := by
  rw [settleOnce]
  split <;> rfl

theorem mem_removeId (q : List PendingSend) (id : Nat) (c : PendingSend) :
    c ∈ removeId q id ↔ c ∈ q ∧ c.messageID ≠ id := by
  rw [removeId, List.mem_filter]
  simp

/-- Deleting an id and settling it preserves the invariant, provided the
single-flight condition still holds on the remaining queue. -/
theorem inv_settle_remove (st : SocketState) (hInv : Inv st) (id : Nat)
    (err : Option String) (hid : id < st.messageID)
    (hflight : ∀ c ∈ removeId st.queue id, c.sent = true →
      (removeId st.queue id).head? = some c) :
    Inv (settleOnce { st with queue := removeId st.queue id } id (outcomeOf err)) := by
  set st' := settleOnce { st with queue := removeId st.queue id } id (outcomeOf err) with hst'
  have hq' : st'.queue = removeId st.queue id := settleOnce_queue _ _ _
  have hmid : st'.messageID = st.messageID := settleOnce_messageID _ _ _
  have hw : st'.writes = st.writes := settleOnce_writes _ _ _
  have hs : st'.settled =
      if isSettled st id = true then st.settled else st.settled ++ [(id, outcomeOf err)] :=
    settleOnce_settled _ _ _
  constructor
  · rw [queueIds, hq', removeId_ids]
    exact (hInv.nodup).sublist (List.filter_sublist _)
  · intro c hc
    rw [hq'] at hc
    rw [hmid]
    exact hInv.qlt c ((mem_removeId _ _ _).mp hc).1
  · intro p hp
    rw [hs] at hp
    rw [hmid]
    by_cases hset : isSettled st id = true
    · rw [if_pos hset] at hp
      exact hInv.slt p hp
    · rw [if_neg hset] at hp
      rcases List.mem_append.mp hp with h | h
      · exact hInv.slt p h
      · simp only [List.mem_singleton] at h
        subst h
        exact hid
  · intro w hw2
    rw [hw] at hw2
    rw [hmid]
    exact hInv.wlt w hw2
  · intro c hc
    rw [hq'] at hc
    obtain ⟨hcq, hcne⟩ := (mem_removeId _ _ _).mp hc
    have hold : isSettled st c.messageID = false := hInv.disj c hcq
    rw [isSettled, hs]
    by_cases hset : isSettled st id = true
    · rw [if_pos hset]
      exact hold
    · rw [if_neg hset]
      rw [isSettled] at hold
      simp only [List.any_append, List.any_cons, List.any_nil, hold, Bool.false_or,
        Bool.or_false]
      simp [hcne.symm]
  · intro c hc hcs
    rw [hq'] at hc ⊢
    exact hflight c hc hcs

/-- The operation `control.ack` preserves the invariant. -/
theorem ctrlAck_preserves (st : SocketState) (hInv : Inv st) (id : Nat) (err : Option String)
    (hid : id < st.messageID) : Inv (ctrlAck st id err) := by
  cases hq : st.queue with
  | nil =>
    rw [ctrlAck_not_first st id err (fun h0 hh => by rw [hq] at hh; cases hh)]
    apply inv_settle_remove st hInv id err hid
    intro c hc
    rw [mem_removeId] at hc
    rw [hq] at hc
    cases hc.1
  | cons c0 t =>
    by_cases hc0 : c0.messageID = id
    · cases ht : t with
      | nil =>
        have hq1 : st.queue = [c0] := by rw [hq, ht]
        rw [← hc0, ctrlAck_first_last st c0 err hq1]
        have hrem : removeId st.queue c0.messageID = [] := by
          rw [hq1, removeId]
          simp
        rw [show ({ st with queue := ([] : List PendingSend) } : SocketState) =
              { st with queue := removeId st.queue c0.messageID } from by rw [hrem]]
        apply inv_settle_remove st hInv c0.messageID err (hc0 ▸ hid)
        intro c hc
        rw [hrem] at hc
        cases hc
      | cons h' rest =>
        have hq2 : st.queue = c0 :: (h' :: rest) := by rw [hq, ht]
        have hnd : c0.messageID ∉ h'.messageID :: rest.map (fun c => c.messageID) ∧
            h'.messageID ∉ rest.map (fun c => c.messageID) ∧
            (rest.map (fun c => c.messageID)).Nodup := by
          have h0 := hInv.nodup
          rw [queueIds, hq2] at h0
          simp only [List.map_cons, List.nodup_cons] at h0
          exact ⟨h0.1, h0.2.1, h0.2.2⟩
        have hsent : h'.sent = false := by
          cases hx : h'.sent
          · rfl
          · exfalso
            have hh := hInv.flight h' (by rw [hq2]; simp) hx
            rw [hq2] at hh
            simp only [List.head?_cons, Option.some.injEq] at hh
            exact hnd.1 (by rw [hh]; simp)
        rw [← hc0, ctrlAck_first_advance st c0 h' rest err hq2 hInv.nodup hsent]
        have hsettledEq : (settleOnce { st with queue := h' :: rest } c0.messageID
            (outcomeOf err)).settled =
            if isSettled st c0.messageID = true then st.settled
            else st.settled ++ [(c0.messageID, outcomeOf err)] := by
          rw [settleOnce_settled,
              show isSettled { st with queue := h' :: rest } c0.messageID =
                isSettled st c0.messageID from rfl]
        constructor
        · rw [queueIds]
          simp only [List.map_cons]
          exact List.nodup_cons.mpr ⟨by simpa using hnd.2.1, hnd.2.2⟩
        · intro c hc
          simp only [List.mem_cons] at hc
          rcases hc with h | h
          · subst h
            exact hInv.qlt h' (by rw [hq2]; simp)
          · exact hInv.qlt c (by rw [hq2]; simp [h])
        · intro p hp
          simp only [hsettledEq] at hp
          by_cases hset : isSettled st c0.messageID = true
          · rw [if_pos hset] at hp
            exact hInv.slt p hp
          · rw [if_neg hset] at hp
            rcases List.mem_append.mp hp with h | h
            · exact hInv.slt p h
            · simp only [List.mem_singleton] at h
              subst h
              exact hc0 ▸ hid
        · intro w hw
          rcases List.mem_append.mp hw with h | h
          · exact hInv.wlt w h
          · simp only [List.mem_singleton] at h
            subst h
            exact hInv.qlt h' (by rw [hq2]; simp)
        · intro c hc
          simp only [List.mem_cons] at hc
          have hkey : c.messageID ≠ c0.messageID ∧ isSettled st c.messageID = false := by
            rcases hc with h | h
            · subst h
              refine ⟨fun heq => hnd.1 ?_, ?_⟩
              · rw [show ({ h' with sent := true } : PendingSend).messageID =
                      h'.messageID from rfl] at heq
                rw [← heq]
                simp
              · exact hInv.disj h' (by rw [hq2]; simp)
            · refine ⟨fun heq => hnd.1 ?_, ?_⟩
              · have hmem : c.messageID ∈ h'.messageID :: rest.map (fun x => x.messageID) := by
                  simp only [List.mem_cons]
                  right
                  exact List.mem_map_of_mem _ h
                rw [heq] at hmem
                exact hmem
              · exact hInv.disj c (by rw [hq2]; simp [h])
          show isSettled _ c.messageID = false
          simp only [isSettled]
          rw [hsettledEq]
          have hold := hkey.2
          rw [isSettled] at hold
          by_cases hset : isSettled st c0.messageID = true
          · rw [if_pos hset]
            exact hold
          · rw [if_neg hset]
            simp only [List.any_append, List.any_cons, List.any_nil, hold, Bool.false_or,
              Bool.or_false]
            simp [hkey.1.symm]
        · intro c hc hcs
          simp only [List.mem_cons] at hc
          rcases hc with h | h
          · subst h
            rfl
          · exfalso
            have hcq : c ∈ st.queue := by rw [hq2]; simp [h]
            have hh := hInv.flight c hcq hcs
            rw [hq2] at hh
            simp only [List.head?_cons, Option.some.injEq] at hh
            exact hnd.1 (by
              have hmem : c.messageID ∈ h'.messageID :: rest.map (fun x => x.messageID) := by
                simp only [List.mem_cons]
                right
                exact List.mem_map_of_mem _ h
              rw [← hh] at hmem
              exact hmem)
    · rw [ctrlAck_not_first st id err (fun h0 hh => by
        rw [hq] at hh
        simp only [List.head?_cons, Option.some.injEq] at hh
        rw [hh] at hc0
        exact hc0)]
      apply inv_settle_remove st hInv id err hid
      intro c hc hcs
      have hcq : c ∈ st.queue := ((mem_removeId _ _ _).mp hc).1
      have hh := hInv.flight c hcq hcs
      rw [hq] at hh
      simp only [List.head?_cons, Option.some.injEq] at hh
      have hrem : removeId st.queue id = c0 :: removeId t id := by
        rw [hq, removeId, List.filter_cons_of_pos (by simp [hc0])]
        rfl
      rw [hrem]
      simp only [List.head?_cons, Option.some.injEq]
      exact hh

theorem inv_set_errors (st : SocketState) (hInv : Inv st) (e : List String) :
    Inv { st with errors := e } :=
  ⟨hInv.nodup, hInv.qlt, hInv.slt, hInv.wlt, hInv.disj, hInv.flight⟩

theorem inv_set_messages (st : SocketState) (hInv : Inv st)
    (m : List (List Nat × RecvBody)) : Inv { st with messages := m } :=
  ⟨hInv.nodup, hInv.qlt, hInv.slt, hInv.wlt, hInv.disj, hInv.flight⟩

theorem inv_set_errors_nd (st : SocketState) (hInv : Inv st) (e : List String)
    (nd : Bool) : Inv { st with errors := e, needDeserialize := nd } :=
  ⟨hInv.nodup, hInv.qlt, hInv.slt, hInv.wlt, hInv.disj, hInv.flight⟩

theorem inv_set_messages_nd (st : SocketState) (hInv : Inv st)
    (m : List (List Nat × RecvBody)) (nd : Bool) :
    Inv { st with messages := m, needDeserialize := nd } :=
  ⟨hInv.nodup, hInv.qlt, hInv.slt, hInv.wlt, hInv.disj, hInv.flight⟩

/-- Settling the freshly allocated id after bumping the counter (a send whose
executor threw) preserves the invariant. -/
theorem inv_bump_settle (st : SocketState) (hInv : Inv st) (o : Outcome) :
    Inv (settleOnce { st with messageID := st.messageID + 1 } st.messageID o) := by
  set st' := settleOnce { st with messageID := st.messageID + 1 } st.messageID o with hst'
  have hq' : st'.queue = st.queue := settleOnce_queue _ _ _
  have hmid : st'.messageID = st.messageID + 1 := settleOnce_messageID _ _ _
  have hw : st'.writes = st.writes := settleOnce_writes _ _ _
  have hs : st'.settled =
      if isSettled st st.messageID = true then st.settled
      else st.settled ++ [(st.messageID, o)] := settleOnce_settled _ _ _
  constructor
  · rw [queueIds, hq']
    exact hInv.nodup
  · intro c hc
    rw [hq'] at hc
    rw [hmid]
    have := hInv.qlt c hc
    omega
  · intro p hp
    rw [hs] at hp
    rw [hmid]
    by_cases hset : isSettled st st.messageID = true
    · rw [if_pos hset] at hp
      have := hInv.slt p hp
      omega
    · rw [if_neg hset] at hp
      rcases List.mem_append.mp hp with h | h
      · have := hInv.slt p h
        omega
      · simp only [List.mem_singleton] at h
        subst h
        omega
  · intro w hw2
    rw [hw] at hw2
    rw [hmid]
    have := hInv.wlt w hw2
    omega
  · intro c hc
    rw [hq'] at hc
    have hold : isSettled st c.messageID = false := hInv.disj c hc
    have hlt : c.messageID < st.messageID := hInv.qlt c hc
    rw [isSettled, hs]
    rw [isSettled] at hold
    by_cases hset : isSettled st st.messageID = true
    · rw [if_pos hset]
      exact hold
    · rw [if_neg hset]
      simp only [List.any_append, List.any_cons, List.any_nil, hold, Bool.false_or,
        Bool.or_false]
      simp
      omega
  · intro c hc hcs
    rw [hq'] at hc ⊢
    exact hInv.flight c hc hcs

/-- A non-prior `sendOp` preserves the invariant. -/
theorem sendOp_preserves (st : SocketState) (hInv : Inv st) (isInternal : Bool)
    (name : List Nat) (needACK : Bool) (d : SendData) :
    Inv ((sendOp st isInternal false name needACK d).1) := by
  have hns : isSettled st st.messageID = false := by
    rw [isSettled]
    rw [List.any_eq_false]
    intro p hp
    have := hInv.slt p hp
    simp
    omega
  have hfresh : ∀ c ∈ st.queue, c.messageID ≠ st.messageID := by
    intro c hc
    have := hInv.qlt c hc
    omega
  cases hb : sendBody d with
  | error e =>
    rw [sendOp_errBody st isInternal false name needACK d e hb hns]
    have := inv_bump_settle st hInv (.rejected e)
    rw [settleOnce, if_neg (by
      rw [show isSettled { st with messageID := st.messageID + 1 } st.messageID =
            isSettled st st.messageID from rfl, hns]
      simp)] at this
    exact this
  | ok body =>
    cases hsize : overMax st.maxPayload
        (serializeHeaderOld isInternal name needACK st.messageID ++ body).length with
    | true =>
      rw [sendOp_tooBig st isInternal false name needACK d body hb hsize hns]
      have := inv_bump_settle st hInv (.rejected "发送的数据大小超过了限制")
      rw [settleOnce, if_neg (by
        rw [show isSettled { st with messageID := st.messageID + 1 } st.messageID =
              isSettled st st.messageID from rfl, hns]
        simp)] at this
      exact this
    | false =>
      rw [sendOp_ok st isInternal false name needACK d body hb hfresh hsize]
      simp only [Bool.false_or]
      set entry : PendingSend :=
        { messageID := st.messageID,
          data := serializeHeaderOld isInternal name needACK st.messageID ++ body,
          needACK := needACK, sent := st.queue.isEmpty } with hentry
      constructor
      · rw [queueIds]
        simp only [List.map_append, List.map_cons, List.map_nil]
        rw [List.nodup_append]
        refine ⟨hInv.nodup, List.nodup_singleton _, ?_⟩
        intro a ha hb2
        simp only [List.mem_singleton] at hb2
        subst hb2
        rcases List.mem_map.mp ha with ⟨c, hc, hcid⟩
        exact hfresh c hc hcid
      · intro c hc
        rcases List.mem_append.mp hc with h | h
        · have := hInv.qlt c h
          show c.messageID < st.messageID + 1
          omega
        · simp only [List.mem_singleton] at h
          subst h
          show st.messageID < st.messageID + 1
          omega
      · intro p hp
        have := hInv.slt p hp
        show p.1 < st.messageID + 1
        omega
      · intro w hw
        rcases List.mem_append.mp hw with h | h
        · have := hInv.wlt w h
          show w.1 < st.messageID + 1
          omega
        · by_cases he : st.queue.isEmpty = true
          · simp only [he, if_true, List.mem_singleton] at h
            subst h
            show st.messageID < st.messageID + 1
            omega
          · simp only [Bool.not_eq_true] at he
            simp only [he, Bool.false_eq_true, if_false, List.not_mem_nil] at h
      · intro c hc
        rcases List.mem_append.mp hc with h | h
        · exact hInv.disj c h
        · simp only [List.mem_singleton] at h
          subst h
          exact hns
      · intro c hc hcs
        rcases List.mem_append.mp hc with h | h
        · have hh := hInv.flight c h hcs
          cases hq : st.queue with
          | nil => rw [hq] at h; cases h
          | cons a t =>
            rw [hq] at hh
            simp only [List.head?_cons, Option.some.injEq] at hh
            subst hh
            simp [hq]
        · simp only [List.mem_singleton] at h
          subst h
          have he : st.queue.isEmpty = true := hcs
          rw [List.isEmpty_iff.mp he]
          rfl

/-- The operation `cancelOp` preserves the invariant. -/
theorem cancelOp_preserves (st : SocketState) (hInv : Inv st) (id : Nat)
    (err : Option String) : Inv ((cancelOp st id err).1) := by
  rw [cancelOp]
  cases hf : st.queue.find? (fun c => c.messageID == id) with
  | none => exact hInv
  | some c =>
    by_cases hs : c.sent = true
    · simp only [hs, if_true]
      exact hInv
    · have hs' : c.sent = false := by
        cases hx : c.sent
        · rfl
        · exact absurd hx hs
      simp only [hs', Bool.false_eq_true, if_false]
      have hcm : c.messageID = id := by
        have := List.find?_some hf
        simpa using this
      have hcq : c ∈ st.queue := List.mem_of_find?_eq_some hf
      apply inv_settle_remove st hInv id err (hcm ▸ hInv.qlt c hcq)
      intro x hx hxs
      obtain ⟨hxq, hxne⟩ := (mem_removeId _ _ _).mp hx
      have hh := hInv.flight x hxq hxs
      cases hq : st.queue with
      | nil =>
        rw [hq] at hxq
        cases hxq
      | cons a t =>
        rw [hq] at hh
        simp only [List.head?_cons, Option.some.injEq] at hh
        have hrem : removeId (a :: t) id = a :: removeId t id := by
          rw [removeId, List.filter_cons_of_pos (by
            subst hh
            simp [hxne])]
          rfl
        rw [hrem]
        simp only [List.head?_cons, Option.some.injEq]
        exact hh

/-- The close drain preserves the invariant. -/
theorem closeDrain_preserves (st : SocketState) (hInv : Inv st) : Inv (closeDrain st) := by
  rw [closeDrain, closeDrain_go st.queue st rfl hInv.nodup hInv.disj]
  constructor
  · rw [queueIds]
    simp
  · intro c hc
    cases hc
  · intro p hp
    rcases List.mem_append.mp hp with h | h
    · exact hInv.slt p h
    · rcases List.mem_map.mp h with ⟨c, hc, hpc⟩
      rw [← hpc]
      exact hInv.qlt c (List.mem_reverse.mp hc)
  · intro w hw
    exact hInv.wlt w hw
  · intro c hc
    cases hc
  · intro c hc
    cases hc

/-- The operation `receiveData` preserves the invariant when the frame does not request an
ack (the `NoPriorEvent` restriction). -/
theorem receiveData_preserves (st : SocketState) (hInv : Inv st) (d : List Nat)
    (hnp : ∀ h, deserializeHeaderOld d = .ok h → h.needACK = false) :
    Inv (receiveData st d) := by
  cases hh : deserializeHeaderOld d with
  | error e =>
    rw [receiveData]
    simp only [hh]
    exact inv_set_errors st hInv _
  | ok h =>
    have hna : h.needACK = false := hnp h hh
    by_cases hi : h.isInternal = true
    · cases hb : deserialize (d.drop h.headerLength) with
      | error e =>
        rw [receiveData]
        simp only [hh, hna, Bool.false_eq_true, if_false, hi, if_true, hb]
        exact inv_set_errors st hInv _
      | ok body =>
        by_cases hn : (h.messageName == ackName) = true
        · cases hhd : body.head? with
          | none =>
            rw [receiveData]
            simp only [hh, hna, Bool.false_eq_true, if_false, hi, if_true, hb, hn, hhd]
            exact hInv
          | some v =>
            cases v with
            | num bits =>
              cases hk : doubleBitsToNat? bits with
              | none =>
                rw [receiveData]
                simp only [hh, hna, Bool.false_eq_true, if_false, hi, if_true, hb, hn, hhd, hk]
                exact hInv
              | some k =>
                cases hf : st.queue.find? (fun c => c.messageID == k) with
                | none =>
                  rw [receiveData]
                  simp only [hh, hna, Bool.false_eq_true, if_false, hi, if_true, hb, hn, hhd,
                    hk, hf]
                  exact hInv
                | some c =>
                  rw [receiveData]
                  simp only [hh, hna, Bool.false_eq_true, if_false, hi, if_true, hb, hn, hhd,
                    hk, hf]
                  have hcm : c.messageID = k := by
                    have := List.find?_some hf
                    simpa using this
                  exact ctrlAck_preserves st hInv k none
                    (hcm ▸ hInv.qlt c (List.mem_of_find?_eq_some hf))
            | str s2 =>
              rw [receiveData]
              simp only [hh, hna, Bool.false_eq_true, if_false, hi, if_true, hb, hn, hhd]
              exact hInv
            | bool b =>
              rw [receiveData]
              simp only [hh, hna, Bool.false_eq_true, if_false, hi, if_true, hb, hn, hhd]
              exact hInv
            | null =>
              rw [receiveData]
              simp only [hh, hna, Bool.false_eq_true, if_false, hi, if_true, hb, hn, hhd]
              exact hInv
            | undef =>
              rw [receiveData]
              simp only [hh, hna, Bool.false_eq_true, if_false, hi, if_true, hb, hn, hhd]
              exact hInv
            | obj j =>
              rw [receiveData]
              simp only [hh, hna, Bool.false_eq_true, if_false, hi, if_true, hb, hn, hhd]
              exact hInv
            | buf b =>
              rw [receiveData]
              simp only [hh, hna, Bool.false_eq_true, if_false, hi, if_true, hb, hn, hhd]
              exact hInv
        · have hn' : (h.messageName == ackName) = false := by simpa using hn
          rw [receiveData]
          simp only [hh, hna, Bool.false_eq_true, if_false, hi, if_true, hb, hn']
          exact hInv
    · have hi' : h.isInternal = false := by
        cases hx : h.isInternal
        · rfl
        · exact absurd hx hi
      by_cases hne : st.needDeserialize = true
      · cases hb : deserialize (d.drop h.headerLength) with
        | error e =>
          rw [receiveData]
          simp only [hh, hna, Bool.false_eq_true, if_false, hi', hne, if_true, hb]
          exact inv_set_errors_nd st hInv _ _
        | ok body =>
          rw [receiveData]
          simp only [hh, hna, Bool.false_eq_true, if_false, hi', hne, if_true, hb]
          exact inv_set_messages_nd st hInv _ _
      · have hne' : st.needDeserialize = false := by
          cases hx : st.needDeserialize
          · rfl
          · exact absurd hx hne
        rw [receiveData]
        simp only [hh, hna, Bool.false_eq_true, if_false, hi', hne']
        exact inv_set_messages_nd st hInv _ _

/-- Every prior-free event preserves the invariant. -/
theorem step_preserves (st : SocketState) (hInv : Inv st) (e : Event)
    (hnp : NoPriorEvent e) : Inv (step st e) := by
  cases e with
  | send i p n a d =>
    have hp : p = false := hnp
    subst hp
    exact sendOp_preserves st hInv i n a d
  | cancelEv id err => exact cancelOp_preserves st hInv id err
  | receive d => exact receiveData_preserves st hInv d hnp
  | writeDone id nACK err =>
    rw [step]
    by_cases hg : (id, nACK) ∈ st.writes ∧ (err.isSome ∨ nACK = false)
    · rw [if_pos hg]
      exact ctrlAck_preserves st hInv id err (hInv.wlt (id, nACK) hg.1)
    · rw [if_neg hg]
      exact hInv
  | close => exact closeDrain_preserves st hInv

/-- The invariant holds at every state reachable through prior-free events. -/
theorem reachable_inv (mp : Option Nat) (nd : Bool) (st : SocketState)
    (hr : ReachableNP mp nd st) : Inv st := by
  induction hr with
  | init =>
    constructor
    · simp [queueIds, initState]
    · intro c hc
      cases hc
    · intro p hp
      cases hp
    · intro w hw
      cases hw
    · intro c hc
      cases hc
    · intro c hc
      cases hc
  | next e _ hnp ih => exact step_preserves _ ih e hnp

/-! ## Claim theorems -/

theorem mem_nodup_id_unique (q : List PendingSend)
    (hnodup : (q.map (fun x => x.messageID)).Nodup) (c c2 : PendingSend)
    (hc : c ∈ q) (hc2 : c2 ∈ q) (h : c.messageID = c2.messageID) : c = c2 := by
  have h1 := find?_of_mem_nodup q c hnodup hc
  have h2 := find?_of_mem_nodup q c2 hnodup hc2
  rw [h] at h1
  rw [h1] at h2
  exact Option.some.inj h2

/-- C1: the claim says decoding a truncated buffer whose length field claims
more bytes than remain raises MalformedValue and never reads out of bounds.
The code does not bounds-check: `Buffer#slice` clamps, so this buffer — a
tag-1 string whose length field claims 100 bytes while only 5 remain —
decodes without any error to the 5 available bytes.  (The spec itself flags
this, §4.1/§9: the reference implementation lacks the mandated check.) -/
theorem c1_truncated_decode_no_error :
    deserialize [1, 64, 89, 0, 0, 0, 0, 0, 0, 97, 98, 99, 100, 101] =
      .ok [Value.str [97, 98, 99, 100, 101]] := by
  rfl

/-- C2: for every value sequence containing only Number / String / Boolean /
Null / Undefined / Binary variants (well-formed in the representation:
64-bit number patterns, lengths below `2^53`, as every JavaScript value is),
`deserialize (serialize v)` returns exactly `v` — byte-for-byte for Binary
and String, exact for Number and Boolean, identity for Null and Undefined. -/
theorem c2_roundtrip (v : List Value) (h : ∀ x ∈ v, roundOK x = true) :
    deserialize (serialize v) = .ok v :=
  deserialize_serialize v h

theorem c2_roundtrip_witness :
    (∀ x ∈ ([Value.num 3, Value.str [104, 105], Value.bool true, Value.null, Value.undef,
        Value.buf [0, 255]] : List Value), roundOK x = true) ∧
    deserialize (serialize [Value.num 3, Value.str [104, 105], Value.bool true, Value.null,
        Value.undef, Value.buf [0, 255]]) =
      .ok [Value.num 3, Value.str [104, 105], Value.bool true, Value.null, Value.undef,
        Value.buf [0, 255]] :=
  ⟨by decide, c2_roundtrip _ (by decide)⟩

/-- C9: for every header (with `messageId` an unsigned integer below `2^53`
and a message name short enough to be a JavaScript string), decoding the
canonical-variant encoding recovers the header exactly, and the reported
`headerByteLength` equals the prefix length field's value (the inner tuple
encoding's length, `22 + nameLength`) plus the 8-byte width of the prefix
itself, which is the exact byte offset at which the frame body begins. -/
theorem c9_header_roundtrip (i a : Bool) (m : Nat) (name : List Nat) (body : List Nat)
    (hm : m < 2 ^ 53) (hn : 22 + name.length < 2 ^ 53) :
    deserializeHeaderC (serializeHeaderC i a m name ++ body) =
      .ok { isInternal := i, needACK := a, messageID := m, messageName := name,
            headerLength := 8 + (22 + name.length) } ∧
    8 + (22 + name.length) = (serializeHeaderC i a m name).length :=
  ⟨deserializeHeaderC_serialize i a m name hm hn body, by rw [serializeHeaderC_length]; omega⟩

theorem c9_header_roundtrip_witness :
    (3 : Nat) < 2 ^ 53 ∧ 22 + [104].length < 2 ^ 53 ∧
    (deserializeHeaderC (serializeHeaderC true false 3 [104] ++ [9, 9, 9]) =
      .ok { isInternal := true, needACK := false, messageID := 3, messageName := [104],
            headerLength := 8 + (22 + [104].length) } ∧
     8 + (22 + [104].length) = (serializeHeaderC true false 3 [104]).length) :=
  ⟨by decide, by decide, c9_header_roundtrip true false 3 [104] [9, 9, 9] (by decide) (by decide)⟩

/-- C3: when the transport closes with N pending sends (queued and in-flight
mixed), the close handler settles all N exactly once, iterating in reverse
insertion order: every entry ends Rejected with the connection-aborted error
"连接中断" (not-yet-sent entries through `cancel`, already-sent ones through
the forced `ack`), the pending queue is left empty, and nothing further is
transmitted. -/
theorem c3_close_drain (st : SocketState)
    (hnodup : (st.queue.map (fun x => x.messageID)).Nodup)
    (hdisj : ∀ c ∈ st.queue, isSettled st c.messageID = false) :
    (closeDrain st).queue = [] ∧
    (closeDrain st).settled = st.settled ++
      st.queue.reverse.map (fun c => (c.messageID, Outcome.rejected "连接中断")) ∧
    (closeDrain st).writes = st.writes := by
  rw [closeDrain, closeDrain_go st.queue st rfl hnodup hdisj]
  exact ⟨rfl, rfl, rfl⟩

theorem c3_close_drain_witness :
    ((demoState.queue.map (fun x => x.messageID)).Nodup ∧
     (∀ c ∈ demoState.queue, isSettled demoState c.messageID = false)) ∧
    ((closeDrain demoState).queue = [] ∧
     (closeDrain demoState).settled = demoState.settled ++
       demoState.queue.reverse.map (fun c => (c.messageID, Outcome.rejected "连接中断")) ∧
     (closeDrain demoState).writes = demoState.writes) :=
  ⟨⟨by decide, by decide⟩, c3_close_drain demoState (by decide) (by decide)⟩

/-- C7: `cancel(messageId, err)` returns true — removing the entry and
settling its promise Rejected(err) — exactly when a pending send with that
id exists with `sent = false`; when `sent = true`, or when no entry with the
id exists, it returns false and leaves the state untouched. -/
theorem c7_cancel (st : SocketState) (id : Nat) (e : String)
    (hnodup : (st.queue.map (fun x => x.messageID)).Nodup)
    (hns : isSettled st id = false) :
    ((cancelOp st id (some e)).2 = true ↔
      ∃ c ∈ st.queue, c.messageID = id ∧ c.sent = false) ∧
    ((cancelOp st id (some e)).2 = true →
      (cancelOp st id (some e)).1 =
        { st with
          queue := removeId st.queue id,
          settled := st.settled ++ [(id, Outcome.rejected e)] }) ∧
    ((cancelOp st id (some e)).2 = false → (cancelOp st id (some e)).1 = st) := by
  by_cases hex : ∃ c ∈ st.queue, c.messageID = id ∧ c.sent = false
  · obtain ⟨c, hc, hcm, hcs⟩ := hex
    have heq := cancelOp_found_unsent st c (some e) hnodup hc hcs (hcm ▸ hns)
    rw [hcm] at heq
    refine ⟨?_, ?_, ?_⟩
    · rw [heq]
      simp only [true_iff]
      exact ⟨c, hc, hcm, hcs⟩
    · intro _
      rw [heq]
      rfl
    · intro hfalse
      rw [heq] at hfalse
      cases hfalse
  · have hfalse : (cancelOp st id (some e)).2 = false := by
      cases hf : st.queue.find? (fun c => c.messageID == id) with
      | none =>
        rw [cancelOp, hf]
      | some c =>
        have hcm : c.messageID = id := by
          have := List.find?_some hf
          simpa using this
        have hcq : c ∈ st.queue := List.mem_of_find?_eq_some hf
        cases hcs : c.sent with
        | true =>
          rw [← hcm, cancelOp_found_sent st c (some e) hnodup hcq hcs]
        | false =>
          exact absurd ⟨c, hcq, hcm, hcs⟩ hex
    have hunch : (cancelOp st id (some e)).1 = st := by
      cases hf : st.queue.find? (fun c => c.messageID == id) with
      | none =>
        rw [cancelOp, hf]
      | some c =>
        have hcm : c.messageID = id := by
          have := List.find?_some hf
          simpa using this
        have hcq : c ∈ st.queue := List.mem_of_find?_eq_some hf
        cases hcs : c.sent with
        | true =>
          rw [← hcm, cancelOp_found_sent st c (some e) hnodup hcq hcs]
        | false =>
          exact absurd ⟨c, hcq, hcm, hcs⟩ hex
    refine ⟨?_, ?_, fun _ => hunch⟩
    · rw [hfalse]
      simp only [Bool.false_eq_true, false_iff]
      exact hex
    · intro habs
      rw [hfalse] at habs
      cases habs

theorem c7_cancel_witness :
    ((demoState.queue.map (fun x => x.messageID)).Nodup ∧
     isSettled demoState 1 = false) ∧
    (((cancelOp demoState 1 (some "e")).2 = true ↔
       ∃ c ∈ demoState.queue, c.messageID = 1 ∧ c.sent = false) ∧
     ((cancelOp demoState 1 (some "e")).2 = true →
       (cancelOp demoState 1 (some "e")).1 =
         { demoState with
           queue := removeId demoState.queue 1,
           settled := demoState.settled ++ [(1, Outcome.rejected "e")] }) ∧
     ((cancelOp demoState 1 (some "e")).2 = false →
       (cancelOp demoState 1 (some "e")).1 = demoState)) :=
  ⟨⟨by decide, by decide⟩, c7_cancel demoState 1 "e" (by decide) (by decide)⟩

/-- C8 counterexample: the claim's parenthetical "when maxPayloadBytes is
unset or 0, no size limit is enforced" fails for 0 — with `maxPayload = 0`
the check `length > 0` fires for every frame (frames always contain a
header), so a minimal send rejects with the size error and nothing is
queued, contradicting "no size limit". -/
theorem c8_zero_limit_counterexample :
    (sendOp (initState (some 0) true) false false [120] true (.values [])).1.queue = [] ∧
    (sendOp (initState (some 0) true) false false [120] true (.values [])).2 =
      .failed 0 "发送的数据大小超过了限制" := by
  constructor <;> rfl

/-- C8 (amended): when `maxPayload` is configured and the wire frame
(header plus body) is strictly longer, the send's promise settles
immediately Rejected with the size error before any transmission attempt,
and nothing is queued or transmitted — the queue and the write log are
exactly as before the call.  When `maxPayload` is unset (`undefined`), no
size limit is enforced; `maxPayload = 0` is an effective limit of zero
(every send rejects), not "unlimited" as the original claim stated. -/
theorem c8_max_payload (st : SocketState) (isInternal prior : Bool) (name : List Nat)
    (needACK : Bool) (vs : List Value) (M : Nat)
    (hmp : st.maxPayload = some M)
    (hsize : M <
      (serializeHeaderOld isInternal name needACK st.messageID ++ serialize vs).length)
    (hns : isSettled st st.messageID = false) :
    ((sendOp st isInternal prior name needACK (.values vs)).1.queue = st.queue ∧
     (sendOp st isInternal prior name needACK (.values vs)).1.writes = st.writes ∧
     (sendOp st isInternal prior name needACK (.values vs)).1.settled =
       st.settled ++ [(st.messageID, Outcome.rejected "发送的数据大小超过了限制")] ∧
     (sendOp st isInternal prior name needACK (.values vs)).2 =
       .failed st.messageID "发送的数据大小超过了限制") ∧
    (∀ len, overMax none len = false) := by
  have hover : overMax st.maxPayload
      (serializeHeaderOld isInternal name needACK st.messageID ++ serialize vs).length =
      true := by
    rw [hmp, overMax]
    simpa using hsize
  have heq := sendOp_tooBig st isInternal prior name needACK (.values vs)
    (serialize vs) rfl hover hns
  rw [heq]
  exact ⟨⟨rfl, rfl, rfl, rfl⟩, fun len => rfl⟩

theorem c8_max_payload_witness :
    ((initState (some 3) true).maxPayload = some 3 ∧
     3 < (serializeHeaderOld false [120] true (initState (some 3) true).messageID ++
       serialize []).length ∧
     isSettled (initState (some 3) true) (initState (some 3) true).messageID = false) ∧
    (((sendOp (initState (some 3) true) false false [120] true (.values [])).1.queue =
        (initState (some 3) true).queue ∧
      (sendOp (initState (some 3) true) false false [120] true (.values [])).1.writes =
        (initState (some 3) true).writes ∧
      (sendOp (initState (some 3) true) false false [120] true (.values [])).1.settled =
        (initState (some 3) true).settled ++
          [((initState (some 3) true).messageID, Outcome.rejected "发送的数据大小超过了限制")] ∧
      (sendOp (initState (some 3) true) false false [120] true (.values [])).2 =
        .failed (initState (some 3) true).messageID "发送的数据大小超过了限制") ∧
     (∀ len, overMax none len = false)) :=
  ⟨⟨rfl, by decide, by decide⟩,
   c8_max_payload (initState (some 3) true) false false [120] true [] 3 rfl (by decide)
     (by decide)⟩

/-- C10 (implicit): calling `cancel(messageId)` with the error argument
omitted on a not-yet-sent pending send removes it from the queue, returns
true, and — because of `err ? reject(err) : resolve()` — settles its promise
as Resolved (fulfilled), not Rejected, even though the message was never
transmitted. -/
theorem c10_cancel_no_error_resolves (st : SocketState) (c : PendingSend)
    (hnodup : (st.queue.map (fun x => x.messageID)).Nodup) (hc : c ∈ st.queue)
    (hsent : c.sent = false) (hns : isSettled st c.messageID = false) :
    cancelOp st c.messageID none =
      ({ st with
         queue := removeId st.queue c.messageID,
         settled := st.settled ++ [(c.messageID, Outcome.resolved)] }, true) :=
  cancelOp_found_unsent st c none hnodup hc hsent hns

theorem c10_cancel_no_error_resolves_witness :
    ((demoState.queue.map (fun x => x.messageID)).Nodup ∧
     demoQueued ∈ demoState.queue ∧ demoQueued.sent = false ∧
     isSettled demoState demoQueued.messageID = false) ∧
    cancelOp demoState demoQueued.messageID none =
      ({ demoState with
         queue := removeId demoState.queue demoQueued.messageID,
         settled := demoState.settled ++ [(demoQueued.messageID, Outcome.resolved)] }, true) :=
  ⟨⟨by decide, by decide, by decide, by decide⟩,
   c10_cancel_no_error_resolves demoState demoQueued (by decide) (by decide) (by decide)
     (by decide)⟩

/-- C4: ACK correlation.  Receiving a frame whose decoded header is internal
with message name `"ack"` and whose body carries the id `m` settles exactly
the pending send with id `m` as Resolved — it is removed from the queue, the
settlement log gains exactly `(m, Resolved)`, and no error is emitted; when
no entry with id `m` exists — in particular when `m` has already settled,
e.g. by the close drain, and a late ack arrives — the frame is silently
ignored: the state is completely unchanged (so nothing else settles) and no
error is emitted. -/
theorem c4_ack_correlation (st : SocketState) (k m : Nat)
    (hk : k < 2 ^ 53) (hm : m < 2 ^ 53) :
    ((∃ c ∈ st.queue, c.messageID = m) →
      (st.queue.map (fun x => x.messageID)).Nodup → isSettled st m = false →
      ((receiveData st (ackFrame k m)).settled = st.settled ++ [(m, Outcome.resolved)] ∧
       queueIds (receiveData st (ackFrame k m)) = (queueIds st).filter (fun j => j != m) ∧
       (receiveData st (ackFrame k m)).errors = st.errors)) ∧
    ((∀ c ∈ st.queue, c.messageID ≠ m) → receiveData st (ackFrame k m) = st) := by
  constructor
  · rintro ⟨c, hc, hcm⟩ hnodup hns
    have hf : st.queue.find? (fun x => x.messageID == m) = some c := by
      rw [← hcm]
      exact find?_of_mem_nodup st.queue c hnodup hc
    rw [receiveData_ackFrame st k m hk hm]
    simp only [hf]
    refine ⟨?_, ctrlAck_ids st m none, ctrlAck_errors st m none⟩
    rw [ctrlAck_settled, if_neg (by rw [hns]; simp)]
    rfl
  · intro habs
    rw [receiveData_ackFrame st k m hk hm]
    simp only [find?_of_absent st.queue m habs]

theorem c4_ack_correlation_witness :
    ((5 : Nat) < 2 ^ 53 ∧ (0 : Nat) < 2 ^ 53 ∧
     (∃ c ∈ demoState.queue, c.messageID = 0) ∧
     (demoState.queue.map (fun x => x.messageID)).Nodup ∧
     isSettled demoState 0 = false ∧
     (∀ c ∈ demoDrained.queue, c.messageID ≠ 0) ∧
     isSettled demoDrained 0 = true) ∧
    (((receiveData demoState (ackFrame 5 0)).settled =
        demoState.settled ++ [(0, Outcome.resolved)] ∧
      queueIds (receiveData demoState (ackFrame 5 0)) =
        (queueIds demoState).filter (fun j => j != 0) ∧
      (receiveData demoState (ackFrame 5 0)).errors = demoState.errors) ∧
     receiveData demoDrained (ackFrame 5 0) = demoDrained) :=
  ⟨⟨by decide, by decide, by decide, by decide, by decide, by decide, by decide⟩,
   ⟨(c4_ack_correlation demoState 5 0 (by decide) (by decide)).1 (by decide) (by decide)
      (by decide),
    (c4_ack_correlation demoDrained 5 0 (by decide) (by decide)).2 (by decide)⟩⟩

/-- C5: at every state reachable without prior sends, at most one pending
send is both transmitted and unsettled, and it is the queue head (every
`sent = true` entry is the head, so any two coincide); and `settle`
(`control.ack`) removes exactly the settled id from the queue, settles its
promise exactly once (a later settle of the same id leaves the log
unchanged), and when the settled entry was the queue head and the queue is
still non-empty it invokes transmit on the new head (marking it sent and
writing its frame). -/
theorem c5_single_flight (mp : Option Nat) (nd : Bool) (st : SocketState)
    (hr : ReachableNP mp nd st) :
    (∀ c ∈ st.queue, c.sent = true → st.queue.head? = some c) ∧
    (∀ c ∈ st.queue, ∀ c2 ∈ st.queue, c.sent = true → c2.sent = true → c = c2) ∧
    (∀ id err, queueIds (ctrlAck st id err) = (queueIds st).filter (fun j => j != id)) ∧
    (∀ id err, (ctrlAck st id err).settled =
       if isSettled st id = true then st.settled else st.settled ++ [(id, outcomeOf err)]) ∧
    (∀ err c h2 rest, st.queue = c :: (h2 :: rest) →
       (ctrlAck st c.messageID err).queue = { h2 with sent := true } :: rest ∧
       (ctrlAck st c.messageID err).writes = st.writes ++ [(h2.messageID, h2.needACK)]) := by
  have hInv := reachable_inv mp nd st hr
  refine ⟨hInv.flight, ?_, fun id err => ctrlAck_ids st id err,
    fun id err => ctrlAck_settled st id err, ?_⟩
  · intro c hc c2 hc2 hcs hcs2
    have h1 := hInv.flight c hc hcs
    have h2 := hInv.flight c2 hc2 hcs2
    rw [h1] at h2
    exact Option.some.inj h2
  · intro err c h2 rest hq
    have hnd : c.messageID ∉ h2.messageID :: rest.map (fun x => x.messageID) ∧
        h2.messageID ∉ rest.map (fun x => x.messageID) ∧
        (rest.map (fun x => x.messageID)).Nodup := by
      have h0 := hInv.nodup
      rw [queueIds, hq] at h0
      simp only [List.map_cons, List.nodup_cons] at h0
      exact ⟨h0.1, h0.2.1, h0.2.2⟩
    have hsent : h2.sent = false := by
      cases hx : h2.sent
      · rfl
      · exfalso
        have hh := hInv.flight h2 (by rw [hq]; simp) hx
        rw [hq] at hh
        simp only [List.head?_cons, Option.some.injEq] at hh
        exact hnd.1 (by rw [hh]; simp)
    rw [ctrlAck_first_advance st c h2 rest err hq hInv.nodup hsent]
    exact ⟨rfl, rfl⟩

theorem c5_single_flight_witness :
    (∀ c ∈ (initState none true).queue, c.sent = true →
       (initState none true).queue.head? = some c) ∧
    (∀ c ∈ (initState none true).queue, ∀ c2 ∈ (initState none true).queue,
       c.sent = true → c2.sent = true → c = c2) ∧
    (∀ id err, queueIds (ctrlAck (initState none true) id err) =
       (queueIds (initState none true)).filter (fun j => j != id)) ∧
    (∀ id err, (ctrlAck (initState none true) id err).settled =
       if isSettled (initState none true) id = true then (initState none true).settled
       else (initState none true).settled ++ [(id, outcomeOf err)]) ∧
    (∀ err c h2 rest, (initState none true).queue = c :: (h2 :: rest) →
       (ctrlAck (initState none true) c.messageID err).queue =
         { h2 with sent := true } :: rest ∧
       (ctrlAck (initState none true) c.messageID err).writes =
         (initState none true).writes ++ [(h2.messageID, h2.needACK)]) :=
  c5_single_flight none true (initState none true) ReachableNP.init

/-- C6: transmit is invoked immediately (`sent` becomes true synchronously,
and the frame is written) iff `prior` is true or the new entry is the only
entry in the queue; otherwise the entry is enqueued with `sent = false` and
nothing is written.  Scenario: from an empty queue a first non-prior send
transmits at once; a second non-prior send enqueues untransmitted; when the
first settles (`control.ack`), the second transmits. -/
theorem c6_transmit_decision (st : SocketState) (prior needACK : Bool)
    (name : List Nat) (vs : List Value)
    (hfresh : ∀ c ∈ st.queue, c.messageID ≠ st.messageID)
    (hsize : overMax st.maxPayload
      (serializeHeaderOld false name needACK st.messageID ++ serialize vs).length = false) :
    (∃ c, (sendOp st false prior name needACK (.values vs)).1.queue = st.queue ++ [c] ∧
      c.messageID = st.messageID ∧
      (c.sent = true ↔ (prior = true ∨ st.queue = [])) ∧
      ((prior = true ∨ st.queue = []) →
        (sendOp st false prior name needACK (.values vs)).1.writes =
          st.writes ++ [(st.messageID, needACK)]) ∧
      (¬(prior = true ∨ st.queue = []) →
        (sendOp st false prior name needACK (.values vs)).1.writes = st.writes)) ∧
    (st.queue = [] → prior = false → ∀ (name2 : List Nat) (vs2 : List Value) (needACK2 : Bool),
      overMax st.maxPayload (serializeHeaderOld false name2 needACK2 (st.messageID + 1) ++
        serialize vs2).length = false →
      ∃ c1 c2,
        (sendOp (sendOp st false false name needACK (.values vs)).1 false false name2
            needACK2 (.values vs2)).1.queue = [c1, c2] ∧
        c1.sent = true ∧ c2.sent = false ∧ c2.messageID = st.messageID + 1 ∧
        (sendOp (sendOp st false false name needACK (.values vs)).1 false false name2
            needACK2 (.values vs2)).1.writes = st.writes ++ [(st.messageID, needACK)] ∧
        (ctrlAck (sendOp (sendOp st false false name needACK (.values vs)).1 false false
            name2 needACK2 (.values vs2)).1 c1.messageID none).queue =
          [{ c2 with sent := true }] ∧
        (ctrlAck (sendOp (sendOp st false false name needACK (.values vs)).1 false false
            name2 needACK2 (.values vs2)).1 c1.messageID none).writes =
          st.writes ++ [(st.messageID, needACK), (c2.messageID, needACK2)]) := by
  have h1 := sendOp_ok st false prior name needACK (.values vs) (serialize vs) rfl hfresh hsize
  constructor
  · refine ⟨_, by rw [h1], rfl, ?_, ?_, ?_⟩
    · show (prior || st.queue.isEmpty) = true ↔ (prior = true ∨ st.queue = [])
      rw [Bool.or_eq_true_iff, List.isEmpty_iff]
    · intro hp
      have hp' : (prior || st.queue.isEmpty) = true := by
        rw [Bool.or_eq_true_iff, List.isEmpty_iff]
        exact hp
      rw [h1]
      simp only [hp', if_true]
    · intro hp
      have hpr : prior = false := by
        cases h : prior
        · rfl
        · exact absurd (Or.inl h) hp
      have hqe : st.queue.isEmpty = false := by
        cases h : st.queue.isEmpty
        · rfl
        · exact absurd (Or.inr (List.isEmpty_iff.mp h)) hp
      have hp' : (prior || st.queue.isEmpty) = false := by
        rw [hpr, hqe]
        rfl
      rw [h1]
      simp only [hp', Bool.false_eq_true, if_false, List.append_nil]
  · intro hq hpr name2 vs2 needACK2 hsize2
    subst hpr
    rw [hq] at h1 hfresh
    simp only [List.isEmpty_nil, Bool.or_true, eq_self_iff_true, if_true,
      List.nil_append] at h1
    set e1 : PendingSend :=
      { messageID := st.messageID,
        data := serializeHeaderOld false name needACK st.messageID ++ serialize vs,
        needACK := needACK, sent := true } with he1
    set st1 : SocketState :=
      { st with
        messageID := st.messageID + 1,
        queue := [e1],
        writes := st.writes ++ [(st.messageID, needACK)] } with hst1
    have h1' : (sendOp st false false name needACK (.values vs)).1 = st1 := by
      rw [h1]
    have hfresh1 : ∀ c ∈ st1.queue, c.messageID ≠ st1.messageID := by
      intro c hc
      rw [hst1] at hc ⊢
      simp only [List.mem_singleton] at hc
      subst hc
      show st.messageID ≠ st.messageID + 1
      omega
    have hsize2' : overMax st1.maxPayload
        (serializeHeaderOld false name2 needACK2 st1.messageID ++ serialize vs2).length =
        false := hsize2
    have h2 := sendOp_ok st1 false false name2 needACK2 (.values vs2) (serialize vs2) rfl
      hfresh1 hsize2'
    have hne1 : st1.queue.isEmpty = false := by rw [hst1]; rfl
    rw [hne1] at h2
    simp only [Bool.or_false, Bool.false_eq_true, if_false, List.append_nil] at h2
    set e2 : PendingSend :=
      { messageID := st1.messageID,
        data := serializeHeaderOld false name2 needACK2 st1.messageID ++ serialize vs2,
        needACK := needACK2, sent := false } with he2
    set st2 : SocketState :=
      { st1 with
        messageID := st1.messageID + 1,
        queue := st1.queue ++ [e2] } with hst2
    have h2' : (sendOp st1 false false name2 needACK2 (.values vs2)).1 = st2 := by
      rw [h2]
    have hq2 : st2.queue = e1 :: (e2 :: []) := rfl
    have hnodup2 : (st2.queue.map (fun x => x.messageID)).Nodup := by
      rw [hq2]
      simp only [List.map_cons, List.map_nil, List.nodup_cons, List.mem_cons,
        List.not_mem_nil, List.mem_singleton]
      refine ⟨?_, by simp, List.nodup_nil⟩
      show ¬(e1.messageID = e2.messageID ∨ False)
      simp only [or_false]
      show ¬(st.messageID = st.messageID + 1)
      omega
    have hadv := ctrlAck_first_advance st2 e1 e2 [] none hq2 hnodup2 rfl
    refine ⟨e1, e2, ?_, rfl, rfl, rfl, ?_, ?_, ?_⟩
    · rw [h1', h2', hq2]
    · rw [h1', h2', hst2, hst1]
    · rw [h1', h2', hadv]
    · rw [h1', h2', hadv]
      rw [hst2, hst1]
      simp [he2, he1]


theorem c6_transmit_decision_witness :
    ((∀ c ∈ (initState none true).queue, c.messageID ≠ (initState none true).messageID) ∧
     overMax (initState none true).maxPayload
       (serializeHeaderOld false [120] true (initState none true).messageID ++
         serialize []).length = false) ∧
    ((∃ c, (sendOp (initState none true) false false [120] true (.values [])).1.queue =
        (initState none true).queue ++ [c] ∧
      c.messageID = (initState none true).messageID ∧
      (c.sent = true ↔ (false = true ∨ (initState none true).queue = [])) ∧
      ((false = true ∨ (initState none true).queue = []) →
        (sendOp (initState none true) false false [120] true (.values [])).1.writes =
          (initState none true).writes ++ [((initState none true).messageID, true)]) ∧
      (¬(false = true ∨ (initState none true).queue = []) →
        (sendOp (initState none true) false false [120] true (.values [])).1.writes =
          (initState none true).writes)) ∧
    ((initState none true).queue = [] → false = false →
      ∀ (name2 : List Nat) (vs2 : List Value) (needACK2 : Bool),
      overMax (initState none true).maxPayload
        (serializeHeaderOld false name2 needACK2 ((initState none true).messageID + 1) ++
          serialize vs2).length = false →
      ∃ c1 c2,
        (sendOp (sendOp (initState none true) false false [120] true (.values [])).1 false
            false name2 needACK2 (.values vs2)).1.queue = [c1, c2] ∧
        c1.sent = true ∧ c2.sent = false ∧
        c2.messageID = (initState none true).messageID + 1 ∧
        (sendOp (sendOp (initState none true) false false [120] true (.values [])).1 false
            false name2 needACK2 (.values vs2)).1.writes =
          (initState none true).writes ++ [((initState none true).messageID, true)] ∧
        (ctrlAck (sendOp (sendOp (initState none true) false false [120] true
            (.values [])).1 false false name2 needACK2 (.values vs2)).1 c1.messageID
            none).queue = [{ c2 with sent := true }] ∧
        (ctrlAck (sendOp (sendOp (initState none true) false false [120] true
            (.values [])).1 false false name2 needACK2 (.values vs2)).1 c1.messageID
            none).writes =
          (initState none true).writes ++
            [((initState none true).messageID, true), (c2.messageID, needACK2)])) :=
  ⟨⟨by decide, rfl⟩,
   c6_transmit_decision (initState none true) false true [120] [] (by decide) rfl⟩

end BinaryWS
